import Mathlib

/-!
Verification development for the `pmd_farc` repository (a parser/writer for the
FARC packed-archive format).  The Rust sources are shallowly embedded:

* byte streams are `List Nat` (each element a byte value `< 256`);
* 32-bit machine integers are `Nat` together with explicit `% 2^32` at the
  places where the Rust code can wrap;
* `std::collections::HashMap` is modelled by association lists (`alookup`,
  `ainsert`, `aremove` mirror `get`/`insert`/`remove`, with `insert`
  replacing an existing binding in place and returning the old value);
* fallible Rust code returns `Option`/`Except`; a Rust panic (slice index out
  of bounds, explicit `panic!`, `unwrap` failure) is a dedicated outcome.

The repository snapshot contains two historical designs side by side: the
parser `src/farc.rs` with its private legacy index, and the unified index
`src/file_name_index.rs` / `src/farc_file.rs` used by `src/farc_writer.rs`.
Both are embedded below.  The out-of-scope collaborators (the `pmd_sir0`
codec and `io_partition`) and the revision of `Farc` that `farc_writer.rs`
calls into are modelled from the specification where noted.
-/

namespace PmdFarc

/-- `2^32`, the modulus of the Rust `u32` arithmetic appearing in the source. -/
def U32 : Nat := 4294967296

/-- Wrapping `u32` arithmetic (release-mode Rust semantics). -/
def u32wrap (n : Nat) : Nat := n % U32

/-- Little-endian byte decomposition of a value `< 2^32`
(`u32::to_le_bytes`). -/
def toLE4 (n : Nat) : List Nat :=
  [n % 256, n / 256 % 256, n / 65536 % 256, n / 16777216 % 256]

/-- Recomposition of four little-endian bytes (`u32::from_le_bytes`). -/
def fromLE4 (a b c d : Nat) : Nat := a + 256 * b + 65536 * c + 16777216 * d

/-- The byte of a stream at a position (0 when out of range; every use below
is guarded by an explicit bounds test mirroring `read_exact`). -/
def byteAt (l : List Nat) (pos : Nat) : Nat := (l.getD pos 0)

/-- `read_exact` of a 4-byte little-endian integer at `pos`
(`read_u32_le` in `src/farc.rs`): fails when fewer than 4 bytes remain. -/
def readU32 (l : List Nat) (pos : Nat) : Option Nat :=
  if pos + 4 ≤ l.length then
    some (fromLE4 (byteAt l pos) (byteAt l (pos + 1)) (byteAt l (pos + 2)) (byteAt l (pos + 3)))
  else none

/-- `read_exact` of a 2-byte little-endian integer at `pos`
(`read_u16_le` in `src/farc.rs`). -/
def readU16 (l : List Nat) (pos : Nat) : Option Nat :=
  if pos + 2 ≤ l.length then some (byteAt l pos + 256 * byteAt l (pos + 1)) else none

/-- Contiguous slice of `len` bytes at `pos` (a partitioned read of a whole
sub-range; fails when the range overruns the stream). -/
def readBytes (l : List Nat) (pos len : Nat) : Option (List Nat) :=
  if pos + len ≤ l.length then some ((l.drop pos).take len) else none

/-- One step of the bit-reflected IEEE CRC-32 (polynomial `0xEDB88320`). -/
def crcStep (c : Nat) : Nat :=
  if c % 2 = 1 then Nat.xor (c / 2) 0xEDB88320 else c / 2

/-- Folding one byte into the running CRC-32 state. -/
def crcByte (c b : Nat) : Nat := crcStep^[8] (Nat.xor c b)

/-- IEEE CRC-32 of a byte sequence (`crc::crc32::checksum_ieee`). -/
def crc32 (bytes : List Nat) : Nat :=
  Nat.xor (bytes.foldl crcByte 0xFFFFFFFF) 0xFFFFFFFF

/-- UTF-16 code units of one character (`char` encoding used by
`str::encode_utf16`). -/
def charUtf16 (c : Char) : List Nat :=
  let n := c.toNat
  if n < 65536 then [n]
  else [0xD800 + (n - 65536) / 1024, 0xDC00 + (n - 65536) % 1024]

/-- UTF-16 code units of a string. -/
def stringUtf16Units (s : String) : List Nat := (s.data.map charUtf16).flatten

/-- `string_to_utf16` (identical in `src/farc.rs` and
`src/file_name_index.rs`): UTF-16LE bytes of a string, two bytes per code
unit, no terminator. -/
def string_to_utf16 (s : String) : List Nat :=
  ((stringUtf16Units s).map (fun u => [u % 256, u / 256 % 256])).flatten

/-- `hash_name` in `src/file_name_index.rs`: IEEE CRC-32 of the UTF-16LE
encoding of the name. -/
def hash_name (s : String) : Nat := crc32 (string_to_utf16 s)

/-- `String::from_utf16` on a list of code units: `none` on a lone
surrogate, otherwise the decoded characters (surrogate pairs combined). -/
def utf16Decode : List Nat → Option (List Char)
  | [] => some []
  | u :: rest =>
    if u < 0xD800 ∨ 0xE000 ≤ u then
      (utf16Decode rest).map (fun cs => Char.ofNat u :: cs)
    else if u < 0xDC00 then
      match rest with
      | [] => none
      | v :: rest2 =>
        if 0xDC00 ≤ v ∧ v < 0xE000 then
          (utf16Decode rest2).map
            (fun cs => Char.ofNat (0x10000 + (u - 0xD800) * 1024 + (v - 0xDC00)) :: cs)
        else none
    else none

/-! ### Association lists modelling `std::collections::HashMap`

All maps in the source are built from the empty map by `insert`/`remove`, so
the association lists below always have pairwise-distinct keys wherever that
matters (tracked by explicit `Nodup` hypotheses). -/

/-- `HashMap::get`: first binding of the key. -/
def alookup {κ ν : Type} [DecidableEq κ] : List (κ × ν) → κ → Option ν
  | [], _ => none
  | (k', v) :: t, k => if k' = k then some v else alookup t k

/-- `HashMap::insert`: replace an existing binding in place (returning the
old value) or append a new binding; the pair is (old value, new map). -/
def ainsert {κ ν : Type} [DecidableEq κ] : List (κ × ν) → κ → ν → Option ν × List (κ × ν)
  | [], k, v => (none, [(k, v)])
  | (k', v') :: t, k, v =>
    if k' = k then (some v', (k, v) :: t)
    else
      let r := ainsert t k v
      (r.1, (k', v') :: r.2)

/-- `HashMap::remove`: drop the binding of the key (returning the old
value); the pair is (old value, new map). -/
def aremove {κ ν : Type} [DecidableEq κ] : List (κ × ν) → κ → Option ν × List (κ × ν)
  | [], _ => (none, [])
  | (k', v') :: t, k =>
    if k' = k then (some v', t)
    else
      let r := aremove t k
      (r.1, (k', v') :: r.2)

theorem ainsert_fst {κ ν : Type} [DecidableEq κ] (l : List (κ × ν)) (k : κ) (v : ν) :
    (ainsert l k v).1 = alookup l k := by
  induction l with
  | nil => rfl
  | cons p t ih =>
    obtain ⟨k', v'⟩ := p
    by_cases h : k' = k <;> simp [ainsert, alookup, h, ih]

theorem aremove_fst {κ ν : Type} [DecidableEq κ] (l : List (κ × ν)) (k : κ) :
    (aremove l k).1 = alookup l k := by
  induction l with
  | nil => rfl
  | cons p t ih =>
    obtain ⟨k', v'⟩ := p
    by_cases h : k' = k <;> simp [aremove, alookup, h, ih]

theorem alookup_ainsert_self {κ ν : Type} [DecidableEq κ] (l : List (κ × ν)) (k : κ) (v : ν) :
    alookup (ainsert l k v).2 k = some v := by
  induction l with
  | nil => simp [ainsert, alookup]
  | cons p t ih =>
    obtain ⟨k', v'⟩ := p
    by_cases h : k' = k <;> simp [ainsert, alookup, h, ih]

theorem alookup_eq_none_of_not_mem_keys {κ ν : Type} [DecidableEq κ] (l : List (κ × ν))
    (k : κ) (h : k ∉ l.map Prod.fst) : alookup l k = none := by
  induction l with
  | nil => rfl
  | cons p t ih =>
    obtain ⟨k', v'⟩ := p
    simp only [List.map_cons, List.mem_cons] at h
    push_neg at h
    have hne : k' ≠ k := fun hh => h.1 hh.symm
    simp [alookup, hne, ih h.2]

theorem alookup_ainsert_ne {κ ν : Type} [DecidableEq κ] (l : List (κ × ν)) (k k' : κ) (v : ν)
    (h : k' ≠ k) : alookup (ainsert l k v).2 k' = alookup l k' := by
  have hkk : k ≠ k' := h.symm
  induction l with
  | nil => simp [ainsert, alookup, hkk]
  | cons p t ih =>
    obtain ⟨k1, v1⟩ := p
    by_cases h1 : k1 = k
    · subst h1
      simp [ainsert, alookup, hkk]
    · by_cases h2 : k1 = k' <;> simp [ainsert, alookup, h1, h2, h, ih]

theorem alookup_aremove_ne {κ ν : Type} [DecidableEq κ] (l : List (κ × ν)) (k k' : κ)
    (h : k' ≠ k) : alookup (aremove l k).2 k' = alookup l k' := by
  have hkk : k ≠ k' := h.symm
  induction l with
  | nil => simp [aremove, alookup]
  | cons p t ih =>
    obtain ⟨k1, v1⟩ := p
    by_cases h1 : k1 = k
    · subst h1
      simp [aremove, alookup, hkk]
    · by_cases h2 : k1 = k' <;> simp [aremove, alookup, h1, h2, h, ih]

theorem alookup_aremove_self {κ ν : Type} [DecidableEq κ] (l : List (κ × ν)) (k : κ)
    (h : (l.map Prod.fst).Nodup) : alookup (aremove l k).2 k = none := by
  induction l with
  | nil => simp [aremove, alookup]
  | cons p t ih =>
    obtain ⟨k1, v1⟩ := p
    simp only [List.map_cons, List.nodup_cons] at h
    by_cases h1 : k1 = k
    · subst h1
      simp only [aremove, if_pos rfl]
      exact alookup_eq_none_of_not_mem_keys t k1 h.1
    · simp [aremove, alookup, h1, ih h.2]

theorem mem_ainsert {κ ν : Type} [DecidableEq κ] (l : List (κ × ν)) (k : κ) (v : ν)
    (p : κ × ν) (hp : p ∈ (ainsert l k v).2) : p = (k, v) ∨ p ∈ l := by
  induction l with
  | nil =>
    simp only [ainsert, List.mem_singleton] at hp
    exact Or.inl hp
  | cons q t ih =>
    obtain ⟨k', v'⟩ := q
    by_cases h : k' = k
    · simp only [ainsert, if_pos h] at hp
      rcases List.mem_cons.mp hp with h1 | h1
      · exact Or.inl h1
      · exact Or.inr (List.mem_cons_of_mem _ h1)
    · simp only [ainsert, if_neg h] at hp
      rcases List.mem_cons.mp hp with h1 | h1
      · exact Or.inr (h1 ▸ List.mem_cons_self _ _)
      · rcases ih h1 with h2 | h2
        · exact Or.inl h2
        · exact Or.inr (List.mem_cons_of_mem _ h2)

theorem mem_aremove {κ ν : Type} [DecidableEq κ] (l : List (κ × ν)) (k : κ)
    (p : κ × ν) (hp : p ∈ (aremove l k).2) : p ∈ l := by
  induction l with
  | nil =>
    simp [aremove] at hp
  | cons q t ih =>
    obtain ⟨k', v'⟩ := q
    by_cases h : k' = k
    · simp only [aremove, if_pos h] at hp
      exact List.mem_cons_of_mem _ hp
    · simp only [aremove, if_neg h] at hp
      rcases List.mem_cons.mp hp with h1 | h1
      · exact h1 ▸ List.mem_cons_self _ _
      · exact List.mem_cons_of_mem _ (ih h1)

theorem length_ainsert_present {κ ν : Type} [DecidableEq κ] (l : List (κ × ν)) (k : κ) (v : ν)
    (h : (alookup l k).isSome) : (ainsert l k v).2.length = l.length := by
  induction l with
  | nil => simp [alookup] at h
  | cons p t ih =>
    obtain ⟨k', v'⟩ := p
    by_cases h1 : k' = k
    · simp [ainsert, h1]
    · simp only [alookup, if_neg h1] at h
      simp [ainsert, h1, ih h]

theorem length_ainsert_absent {κ ν : Type} [DecidableEq κ] (l : List (κ × ν)) (k : κ) (v : ν)
    (h : alookup l k = none) : (ainsert l k v).2.length = l.length + 1 := by
  induction l with
  | nil => simp [ainsert]
  | cons p t ih =>
    obtain ⟨k', v'⟩ := p
    by_cases h1 : k' = k
    · simp [alookup, h1] at h
    · simp only [alookup, if_neg h1] at h
      simp [ainsert, h1, ih h]

theorem length_aremove_present {κ ν : Type} [DecidableEq κ] (l : List (κ × ν)) (k : κ)
    (h : (alookup l k).isSome) : (aremove l k).2.length + 1 = l.length := by
  induction l with
  | nil => simp [alookup] at h
  | cons p t ih =>
    obtain ⟨k', v'⟩ := p
    by_cases h1 : k' = k
    · simp [aremove, h1]
    · simp only [alookup, if_neg h1] at h
      simp [aremove, h1, ih h]

theorem ainsert_restore {κ ν : Type} [DecidableEq κ] (l : List (κ × ν)) (k : κ) (v old : ν)
    (h : alookup l k = some old) : (ainsert (ainsert l k v).2 k old).2 = l := by
  induction l with
  | nil => simp [alookup] at h
  | cons p t ih =>
    obtain ⟨k', v'⟩ := p
    by_cases h1 : k' = k
    · simp only [alookup, if_pos h1] at h
      subst h1
      simp only [ainsert, if_pos rfl] at *
      injection h with h
      subst h
      rfl
    · simp only [alookup, if_neg h1] at h
      simp [ainsert, h1, ih h]

theorem aremove_restore {κ ν : Type} [DecidableEq κ] (l : List (κ × ν)) (k : κ) (v : ν)
    (h : alookup l k = none) : (aremove (ainsert l k v).2 k).2 = l := by
  induction l with
  | nil => simp [ainsert, aremove]
  | cons p t ih =>
    obtain ⟨k', v'⟩ := p
    by_cases h1 : k' = k
    · simp [alookup, h1] at h
    · simp only [alookup, if_neg h1] at h
      simp [ainsert, aremove, h1, ih h]

theorem alookup_mem {κ ν : Type} [DecidableEq κ] (l : List (κ × ν)) (k : κ) (v : ν)
    (h : alookup l k = some v) : (k, v) ∈ l := by
  induction l with
  | nil => simp [alookup] at h
  | cons p t ih =>
    obtain ⟨k', v'⟩ := p
    by_cases h1 : k' = k
    · simp only [alookup, if_pos h1] at h
      injection h with h
      exact h1 ▸ h ▸ List.mem_cons_self _ _
    · simp only [alookup, if_neg h1] at h
      exact List.mem_cons_of_mem _ (ih h)

theorem alookup_isSome_of_mem {κ ν : Type} [DecidableEq κ] (l : List (κ × ν)) (k : κ) (v : ν)
    (h : (k, v) ∈ l) : (alookup l k).isSome := by
  induction l with
  | nil => simp at h
  | cons p t ih =>
    obtain ⟨k', v'⟩ := p
    by_cases h1 : k' = k
    · simp [alookup, h1]
    · rcases List.mem_cons.mp h with h2 | h2
      · exact absurd (congrArg Prod.fst h2).symm h1
      · simp [alookup, h1, ih h2]

theorem keys_ainsert_present {κ ν : Type} [DecidableEq κ] (l : List (κ × ν)) (k : κ) (v : ν)
    (h : (alookup l k).isSome) : (ainsert l k v).2.map Prod.fst = l.map Prod.fst := by
  induction l with
  | nil => simp [alookup] at h
  | cons p t ih =>
    obtain ⟨k', v'⟩ := p
    by_cases h1 : k' = k
    · simp [ainsert, h1]
    · simp only [alookup, if_neg h1] at h
      simp [ainsert, h1, ih h]

theorem keys_ainsert_absent {κ ν : Type} [DecidableEq κ] (l : List (κ × ν)) (k : κ) (v : ν)
    (h : alookup l k = none) : (ainsert l k v).2.map Prod.fst = l.map Prod.fst ++ [k] := by
  induction l with
  | nil => simp [ainsert]
  | cons p t ih =>
    obtain ⟨k', v'⟩ := p
    by_cases h1 : k' = k
    · simp [alookup, h1] at h
    · simp only [alookup, if_neg h1] at h
      simp [ainsert, h1, ih h]

theorem nodup_keys_ainsert {κ ν : Type} [DecidableEq κ] (l : List (κ × ν)) (k : κ) (v : ν)
    (h : (l.map Prod.fst).Nodup) : ((ainsert l k v).2.map Prod.fst).Nodup := by
  rcases ho : alookup l k with _ | old
  · have hk : k ∉ l.map Prod.fst := by
      intro hm
      obtain ⟨p2, hp2, hp2e⟩ := List.mem_map.mp hm
      obtain ⟨k2, v2⟩ := p2
      simp only at hp2e
      subst hp2e
      have hs := alookup_isSome_of_mem l k2 v2 hp2
      rw [ho] at hs
      simp at hs
    rw [keys_ainsert_absent l k v ho]
    simp [List.nodup_append, h, hk]
  · rw [keys_ainsert_present l k v (by rw [ho]; rfl)]
    exact h

theorem nodup_keys_aremove {κ ν : Type} [DecidableEq κ] (l : List (κ × ν)) (k : κ)
    (h : (l.map Prod.fst).Nodup) : ((aremove l k).2.map Prod.fst).Nodup := by
  induction l with
  | nil => simp [aremove]
  | cons p t ih =>
    obtain ⟨k', v'⟩ := p
    simp only [List.map_cons, List.nodup_cons] at h
    by_cases h1 : k' = k
    · simp only [aremove, if_pos h1]
      exact h.2
    · simp only [aremove, if_neg h1, List.map_cons, List.nodup_cons]
      constructor
      · intro hm
        obtain ⟨p2, hp2, hp2e⟩ := List.mem_map.mp hm
        exact h.1 (List.mem_map.mpr ⟨p2, mem_aremove t k p2 hp2, hp2e⟩)
      · exact ih h.2

/-! ### The unified archive index (`src/farc_file.rs`, `src/file_name_index.rs`) -/

/-- `FarcFile` in `src/farc_file.rs`: one sub-file record of the unified
design (extent, name hash, optional known name). -/
structure FarcFile where
  start : Nat
  length : Nat
  name_hash : Nat
  name : Option String
deriving DecidableEq

/-- `FarcFile::new`. -/
def FarcFile.new (start length name_hash : Nat) (name : Option String) : FarcFile :=
  ⟨start, length, name_hash, name⟩

/-- `FileNameError` in `src/file_name_index.rs`. -/
inductive FileNameError
  | HashAlreadyPresent (hash : Nat)
  | HashAlreadyPresentOne (hash : Nat) (name : String)
  | HashAlreadyPresentTwo (hash : Nat) (first second : String)
  | NameAlreadyPresent (name : String)
deriving DecidableEq

/-- `FileNameIndex` in `src/file_name_index.rs`: the entry sequence plus the
hash-to-position and name-to-position maps. -/
structure FileNameIndex where
  file_data : List FarcFile
  file_id_by_crc32 : List (Nat × Nat)
  file_id_by_string : List (String × Nat)
deriving DecidableEq

/-- `FileNameIndex::default()`. -/
def emptyIndex : FileNameIndex := ⟨[], [], []⟩

/-- `FileNameIndex::add_file` (the private two-phase insert with rollback).
The outer `Option` is `none` exactly where the Rust code would panic from an
out-of-bounds `self.file_data[old_id_by_hash]`; otherwise the result is the
mutated index together with the returned `Result` (`none` = `Ok(())`). -/
def addFile (i : FileNameIndex) (f : FarcFile) :
    Option (FileNameIndex × Option FileNameError) :=
  let new_farc_id := i.file_data.length
  let nameStep : Except (FileNameIndex × Option FileNameError) FileNameIndex :=
    match f.name with
    | some farc_name =>
      let r1 := ainsert i.file_id_by_string farc_name new_farc_id
      match r1.1 with
      | some old_id_by_name =>
        .error ({ i with file_id_by_string := (ainsert r1.2 farc_name old_id_by_name).2 },
                some (.NameAlreadyPresent farc_name))
      | none => .ok { i with file_id_by_string := r1.2 }
    | none => .ok i
  match nameStep with
  | .error out => some out
  | .ok i1 =>
    let r2 := ainsert i1.file_id_by_crc32 f.name_hash new_farc_id
    match r2.1 with
    | some old_id_by_hash =>
      let i2 : FileNameIndex :=
        { i1 with file_id_by_crc32 := (ainsert r2.2 f.name_hash old_id_by_hash).2 }
      let i3 : FileNameIndex :=
        match f.name with
        | some farc_name =>
          { i2 with file_id_by_string := (aremove i2.file_id_by_string farc_name).2 }
        | none => i2
      match i3.file_data[old_id_by_hash]? with
      | none => none
      | some old_file =>
        some (i3, some
          (match f.name with
           | some name_first =>
             match old_file.name with
             | some name_second => .HashAlreadyPresentTwo f.name_hash name_first name_second
             | none => .HashAlreadyPresentOne f.name_hash name_first
           | none =>
             match old_file.name with
             | some name_second => .HashAlreadyPresentOne f.name_hash name_second
             | none => .HashAlreadyPresent f.name_hash))
    | none =>
      some ({ i1 with file_id_by_crc32 := r2.2, file_data := i1.file_data ++ [f] }, none)

/-- `FileNameIndex::add_file_with_hash`. -/
def addFileWithHash (i : FileNameIndex) (hash offset lenght : Nat) :
    Option (FileNameIndex × Option FileNameError) :=
  addFile i (FarcFile.new offset lenght hash none)

/-- `FileNameIndex::add_file_with_name`. -/
def addFileWithName (i : FileNameIndex) (name : String) (offset lenght : Nat) :
    Option (FileNameIndex × Option FileNameError) :=
  addFile i (FarcFile.new offset lenght (hash_name name) (some name))

/-- `FileNameIndex::check_file_name` (unified design).  `none` is the Rust
panic from an out-of-bounds `self.file_data[*id]`. -/
def checkFileName (i : FileNameIndex) (name : String) : Option (FileNameIndex × Bool) :=
  let hash := hash_name name
  match alookup i.file_id_by_crc32 hash with
  | some id =>
    match i.file_data[id]? with
    | none => none
    | some file =>
      if file.name = none then
        some ({ i with
                file_data := i.file_data.set id { file with name := some name },
                file_id_by_string := (ainsert i.file_id_by_string name id).2 },
              true)
      else some (i, false)
  | none => some (i, false)

/-- `FileNameIndex::get_file_by_name`.  `none` is the Rust panic from an
out-of-bounds `self.file_data[..]` index; `some none` is a `None` miss. -/
def getFileByName (i : FileNameIndex) (name : String) : Option (Option FarcFile) :=
  match alookup i.file_id_by_string name with
  | some direct =>
    match i.file_data[direct]? with
    | none => none
    | some f => some (some f)
  | none =>
    match alookup i.file_id_by_crc32 (hash_name name) with
    | some file_id =>
      match i.file_data[file_id]? with
      | none => none
      | some file => if file.name.isSome then some none else some (some file)
    | none => some none

/-- `FileNameIndex::get_file_by_hash`: direct hash-map lookup.  `none` is
the Rust panic from an out-of-bounds index; `some none` is a `None` miss. -/
def getFileByHash (i : FileNameIndex) (hash : Nat) : Option (Option FarcFile) :=
  match alookup i.file_id_by_crc32 hash with
  | some id =>
    match i.file_data[id]? with
    | none => none
    | some f => some (some f)
  | none => some none

/-- `FileNameIndex::len`. -/
def FileNameIndex.len (i : FileNameIndex) : Nat := i.file_data.length

/-- Well-formedness of the unified index: every position stored in either
lookup map is a valid index into the entry sequence (the invariant of claim
C9). -/
def WFIndex (i : FileNameIndex) : Prop :=
  (∀ p ∈ i.file_id_by_crc32, p.2 < i.file_data.length) ∧
  (∀ p ∈ i.file_id_by_string, p.2 < i.file_data.length)

instance (i : FileNameIndex) : Decidable (WFIndex i) := by
  unfold WFIndex
  infer_instance



/-! ### Theorems about the unified index (claims C5, C6, C9) -/

theorem addFile_conflict_atomic (i : FileNameIndex) (f : FarcFile)
    (i' : FileNameIndex) (e : FileNameError)
    (h : addFile i f = some (i', some e)) : i' = i := by
  unfold addFile at h
  cases i with
  | mk fd mc ms =>
  cases hn : f.name with
  | some n =>
    simp only [hn] at h
    rcases h1 : alookup ms n with _ | old_name_id
    · rw [show (ainsert ms n fd.length).1 = alookup ms n from ainsert_fst .., h1] at h
      dsimp only at h
      rcases h2 : alookup mc f.name_hash with _ | old_hash_id
      · rw [show (ainsert mc f.name_hash fd.length).1 = alookup mc f.name_hash from ainsert_fst ..,
          h2] at h
        dsimp only at h
        injection h with h
        injection h with h he
        simp at he
      · rw [show (ainsert mc f.name_hash fd.length).1 = alookup mc f.name_hash from ainsert_fst ..,
          h2] at h
        dsimp only at h
        rcases h3 : fd[old_hash_id]? with _ | old_file
        · rw [h3] at h; simp at h
        · rw [h3] at h
          dsimp only at h
          injection h with h
          injection h with h he
          rw [← h]
          congr 1
          · exact ainsert_restore mc f.name_hash fd.length old_hash_id h2
          · rw [aremove_restore ms n fd.length h1]
    · rw [show (ainsert ms n fd.length).1 = alookup ms n from ainsert_fst .., h1] at h
      dsimp only at h
      injection h with h
      injection h with h he
      rw [← h]
      congr 1
      exact ainsert_restore ms n fd.length old_name_id h1
  | none =>
    simp only [hn] at h
    rcases h2 : alookup mc f.name_hash with _ | old_hash_id
    · rw [show (ainsert mc f.name_hash fd.length).1 = alookup mc f.name_hash from ainsert_fst ..,
        h2] at h
      dsimp only at h
      injection h with h
      injection h with h he
      simp at he
    · rw [show (ainsert mc f.name_hash fd.length).1 = alookup mc f.name_hash from ainsert_fst ..,
        h2] at h
      dsimp only at h
      rcases h3 : fd[old_hash_id]? with _ | old_file
      · rw [h3] at h; simp at h
      · rw [h3] at h
        dsimp only at h
        injection h with h
        injection h with h he
        rw [← h]
        congr 1
        exact ainsert_restore mc f.name_hash fd.length old_hash_id h2

theorem addFile_wf (i : FileNameIndex) (f : FarcFile) (hw : WFIndex i) :
    ∃ r, addFile i f = some r ∧ WFIndex r.1 := by
  unfold addFile
  cases i with
  | mk fd mc ms =>
  obtain ⟨hwc, hws⟩ := hw
  dsimp only at hwc hws
  cases hn : f.name with
  | some n =>
    simp only [hn]
    rcases h1 : alookup ms n with _ | old_name_id
    · rw [show (ainsert ms n fd.length).1 = alookup ms n from ainsert_fst .., h1]
      dsimp only
      rcases h2 : alookup mc f.name_hash with _ | old_hash_id
      · rw [show (ainsert mc f.name_hash fd.length).1 = alookup mc f.name_hash from
          ainsert_fst .., h2]
        dsimp only
        refine ⟨_, rfl, ?_, ?_⟩
        · intro p hp
          simp only [List.length_append, List.length_cons, List.length_nil]
          rcases mem_ainsert mc f.name_hash fd.length p hp with h3 | h3
          · subst h3; omega
          · have := hwc p h3; omega
        · intro p hp
          simp only [List.length_append, List.length_cons, List.length_nil]
          rcases mem_ainsert ms n fd.length p hp with h3 | h3
          · subst h3; omega
          · have := hws p h3; omega
      · rw [show (ainsert mc f.name_hash fd.length).1 = alookup mc f.name_hash from
          ainsert_fst .., h2]
        dsimp only
        have hlt : old_hash_id < fd.length := hwc _ (alookup_mem mc f.name_hash old_hash_id h2)
        rw [List.getElem?_eq_getElem hlt]
        dsimp only
        refine ⟨_, rfl, ?_, ?_⟩
        · intro p hp
          dsimp only at hp
          rw [ainsert_restore mc f.name_hash fd.length old_hash_id h2] at hp
          exact hwc p hp
        · intro p hp
          dsimp only at hp
          rw [aremove_restore ms n fd.length h1] at hp
          exact hws p hp
    · rw [show (ainsert ms n fd.length).1 = alookup ms n from ainsert_fst .., h1]
      dsimp only
      refine ⟨_, rfl, ?_, ?_⟩
      · intro p hp
        exact hwc p hp
      · intro p hp
        dsimp only at hp
        rw [ainsert_restore ms n fd.length old_name_id h1] at hp
        exact hws p hp
  | none =>
    simp only [hn]
    rcases h2 : alookup mc f.name_hash with _ | old_hash_id
    · rw [show (ainsert mc f.name_hash fd.length).1 = alookup mc f.name_hash from
        ainsert_fst .., h2]
      dsimp only
      refine ⟨_, rfl, ?_, ?_⟩
      · intro p hp
        simp only [List.length_append, List.length_cons, List.length_nil]
        rcases mem_ainsert mc f.name_hash fd.length p hp with h3 | h3
        · subst h3; omega
        · have := hwc p h3; omega
      · intro p hp
        simp only [List.length_append, List.length_cons, List.length_nil]
        have := hws p hp; omega
    · rw [show (ainsert mc f.name_hash fd.length).1 = alookup mc f.name_hash from
        ainsert_fst .., h2]
      dsimp only
      have hlt : old_hash_id < fd.length := hwc _ (alookup_mem mc f.name_hash old_hash_id h2)
      rw [List.getElem?_eq_getElem hlt]
      dsimp only
      refine ⟨_, rfl, ?_, ?_⟩
      · intro p hp
        dsimp only at hp
        rw [ainsert_restore mc f.name_hash fd.length old_hash_id h2] at hp
        exact hwc p hp
      · intro p hp
        exact hws p hp

theorem checkFileName_wf (i : FileNameIndex) (n : String) (hw : WFIndex i) :
    ∃ r, checkFileName i n = some r ∧ WFIndex r.1 := by
  unfold checkFileName
  cases i with
  | mk fd mc ms =>
  obtain ⟨hwc, hws⟩ := hw
  dsimp only at hwc hws ⊢
  rcases h1 : alookup mc (hash_name n) with _ | id
  · exact ⟨_, rfl, hwc, hws⟩
  · have hlt : id < fd.length := hwc _ (alookup_mem mc (hash_name n) id h1)
    dsimp only
    rw [List.getElem?_eq_getElem hlt]
    dsimp only
    by_cases h2 : fd[id].name = none
    · rw [if_pos h2]
      refine ⟨_, rfl, ?_, ?_⟩
      · intro p hp
        dsimp only at hp ⊢
        rw [List.length_set]
        exact hwc p hp
      · intro p hp
        dsimp only at hp ⊢
        rw [List.length_set]
        rcases mem_ainsert ms n id p hp with h3 | h3
        · subst h3; exact hlt
        · exact hws p h3
    · rw [if_neg h2]
      exact ⟨_, rfl, hwc, hws⟩

theorem getFileByHash_no_panic (i : FileNameIndex) (h : Nat) (hw : WFIndex i) :
    getFileByHash i h ≠ none := by
  unfold getFileByHash
  cases i with
  | mk fd mc ms =>
  obtain ⟨hwc, hws⟩ := hw
  dsimp only at hwc hws ⊢
  rcases h1 : alookup mc h with _ | id
  · simp
  · have hlt : id < fd.length := hwc _ (alookup_mem mc h id h1)
    dsimp only
    rw [List.getElem?_eq_getElem hlt]
    simp

theorem getFileByName_no_panic (i : FileNameIndex) (n : String) (hw : WFIndex i) :
    getFileByName i n ≠ none := by
  unfold getFileByName
  cases i with
  | mk fd mc ms =>
  obtain ⟨hwc, hws⟩ := hw
  dsimp only at hwc hws ⊢
  rcases h1 : alookup ms n with _ | id
  · rcases h2 : alookup mc (hash_name n) with _ | id2
    · simp
    · have hlt : id2 < fd.length := hwc _ (alookup_mem mc (hash_name n) id2 h2)
      dsimp only
      rw [List.getElem?_eq_getElem hlt]
      dsimp only
      split <;> simp
  · have hlt : id < fd.length := hws _ (alookup_mem ms n id h1)
    dsimp only
    rw [List.getElem?_eq_getElem hlt]
    simp

/-- Claim C5: looking an entry up by its hash is a direct hash-map lookup
independent of whether the entry's name is known.  After a successful
`check_file_name` call that recovers the entry's name, `get_file_by_hash` of
the unified index (`src/file_name_index.rs`) still returns the same entry,
with only its `name` field changed (now populated with the recovered name);
`start`, `length` and `name_hash` are untouched. -/
theorem c5_get_by_hash_independent_of_name_recovery (i : FileNameIndex) (name : String) (i' : FileNameIndex)
    (f : FarcFile)
    (hget : getFileByHash i (hash_name name) = some (some f))
    (hchk : checkFileName i name = some (i', true)) :
    getFileByHash i' (hash_name name) =
      some (some { start := f.start, length := f.length,
                   name_hash := f.name_hash, name := some name }) ∧
    f.name = none := by
  unfold getFileByHash at hget
  unfold checkFileName at hchk
  cases i with
  | mk fd mc ms =>
  dsimp only at hget hchk
  rcases h1 : alookup mc (hash_name name) with _ | id
  · rw [h1] at hget
    simp at hget
  · rw [h1] at hget hchk
    dsimp only at hget hchk
    rcases h2 : fd[id]? with _ | file
    · rw [h2] at hget; simp at hget
    · rw [h2] at hget hchk
      dsimp only at hget hchk
      injection hget with hget
      injection hget with hget
      rw [hget] at h2 hchk
      by_cases h3 : f.name = none
      · rw [if_pos h3] at hchk
        injection hchk with hchk
        injection hchk with hchk hb
        refine ⟨?_, h3⟩
        rw [← hchk]
        unfold getFileByHash
        dsimp only
        rw [h1]
        have hlt : id < fd.length := by
          by_contra hge
          rw [List.getElem?_eq_none (by omega)] at h2
          exact Option.noConfusion h2
        dsimp only
        rw [List.getElem?_set_self hlt]
      · rw [if_neg h3] at hchk
        injection hchk with hchk
        injection hchk with hchk hb
        exact absurd hb.symm (by simp)

def conflictIndex : FileNameIndex := ⟨[⟨0, 4, 5, none⟩], [(5, 0)], []⟩

/-- Claim C6: for all sequences of `add_file_with_name` / `add_file_with_hash`
calls on a `FileNameIndex`, if a call returns a conflict error then the index
is structurally unchanged from immediately before that call — hence its entry
count and the result of every lookup are unchanged (the two-phase
insert-then-rollback of `FileNameIndex::add_file`). -/
theorem c6_conflict_error_is_atomic :
    (∀ i hash offset lenght i' e,
       addFileWithHash i hash offset lenght = some (i', some e) → i' = i) ∧
    (∀ i name offset lenght i' e,
       addFileWithName i name offset lenght = some (i', some e) → i' = i) := by
  constructor
  · intro i hash offset lenght i' e h
    exact addFile_conflict_atomic i _ i' e h
  · intro i name offset lenght i' e h
    exact addFile_conflict_atomic i _ i' e h

theorem c6_witness :
    addFileWithHash conflictIndex 5 1 2 =
      some (conflictIndex, some (FileNameError.HashAlreadyPresent 5)) ∧
    conflictIndex = conflictIndex :=
  ⟨by decide,
   c6_conflict_error_is_atomic.1 conflictIndex 5 1 2 conflictIndex (FileNameError.HashAlreadyPresent 5) (by decide)⟩

/-- Claim C9: invariant of `FileNameIndex` — every position stored in the
hash-to-position or name-to-position map is strictly less than the length of
the entry sequence.  The invariant holds for the empty index and is preserved
by `add_file_with_hash`, `add_file_with_name` and `check_file_name`; under it
none of those operations nor `get_file_by_hash` / `get_file_by_name` ever
indexes the entry sequence out of bounds (the `none` = panic outcome is
impossible). -/
theorem c9_index_positions_always_valid :
    WFIndex emptyIndex ∧
    (∀ i hash offset lenght r, WFIndex i → addFileWithHash i hash offset lenght = some r →
       WFIndex r.1) ∧
    (∀ i name offset lenght r, WFIndex i → addFileWithName i name offset lenght = some r →
       WFIndex r.1) ∧
    (∀ i name r, WFIndex i → checkFileName i name = some r → WFIndex r.1) ∧
    (∀ i hash offset lenght, WFIndex i → addFileWithHash i hash offset lenght ≠ none) ∧
    (∀ i name offset lenght, WFIndex i → addFileWithName i name offset lenght ≠ none) ∧
    (∀ i name, WFIndex i → checkFileName i name ≠ none) ∧
    (∀ i hash, WFIndex i → getFileByHash i hash ≠ none) ∧
    (∀ i name, WFIndex i → getFileByName i name ≠ none) := by
  refine ⟨⟨by simp [emptyIndex], by simp [emptyIndex]⟩, ?_, ?_, ?_, ?_, ?_, ?_, ?_, ?_⟩
  · intro i hash offset lenght r hw h
    obtain ⟨r2, hr2, hwr⟩ := addFile_wf i (FarcFile.new offset lenght hash none) hw
    have he : some r = some r2 := h.symm.trans hr2
    injection he with he
    rw [he]
    exact hwr
  · intro i name offset lenght r hw h
    obtain ⟨r2, hr2, hwr⟩ := addFile_wf i (FarcFile.new offset lenght (hash_name name) (some name)) hw
    have he : some r = some r2 := h.symm.trans hr2
    injection he with he
    rw [he]
    exact hwr
  · intro i name r hw h
    obtain ⟨r2, hr2, hwr⟩ := checkFileName_wf i name hw
    have he : some r = some r2 := h.symm.trans hr2
    injection he with he
    rw [he]
    exact hwr
  · intro i hash offset lenght hw hcon
    obtain ⟨r2, hr2, _⟩ := addFile_wf i (FarcFile.new offset lenght hash none) hw
    rw [show addFileWithHash i hash offset lenght
        = addFile i (FarcFile.new offset lenght hash none) from rfl] at hcon
    rw [hcon] at hr2
    exact Option.noConfusion hr2
  · intro i name offset lenght hw hcon
    obtain ⟨r2, hr2, _⟩ := addFile_wf i (FarcFile.new offset lenght (hash_name name) (some name)) hw
    rw [show addFileWithName i name offset lenght
        = addFile i (FarcFile.new offset lenght (hash_name name) (some name)) from rfl] at hcon
    rw [hcon] at hr2
    exact Option.noConfusion hr2
  · intro i name hw hcon
    obtain ⟨r2, hr2, _⟩ := checkFileName_wf i name hw
    rw [hcon] at hr2
    exact Option.noConfusion hr2
  · intro i hash hw
    exact getFileByHash_no_panic i hash hw
  · intro i name hw
    exact getFileByName_no_panic i name hw

theorem c9_witness :
    WFIndex emptyIndex ∧ getFileByHash emptyIndex 5 ≠ none :=
  ⟨by decide, c9_index_positions_always_valid.2.2.2.2.2.2.2.1 emptyIndex 5 (by decide)⟩

def c5Index : FileNameIndex := ⟨[⟨0, 4, hash_name "a", none⟩], [(hash_name "a", 0)], []⟩

def c5IndexAfter : FileNameIndex :=
  ⟨[⟨0, 4, hash_name "a", some "a"⟩], [(hash_name "a", 0)], [("a", 0)]⟩

theorem c5_witness :
    getFileByHash c5Index (hash_name "a") = some (some (FarcFile.new 0 4 (hash_name "a") none)) ∧
    checkFileName c5Index "a" = some (c5IndexAfter, true) ∧
    (getFileByHash c5IndexAfter (hash_name "a") =
       some (some { start := 0, length := 4, name_hash := hash_name "a", name := some "a" }) ∧
     (FarcFile.new 0 4 (hash_name "a") none).name = none) :=
  ⟨by decide, by decide,
   c5_get_by_hash_independent_of_name_recovery c5Index "a" c5IndexAfter
     (FarcFile.new 0 4 (hash_name "a") none) (by decide) (by decide)⟩

/-! ### The legacy parser and its private index (`src/farc.rs`) -/

/-- `FarcFile` in `src/farc.rs` (legacy, private): extent only. -/
structure OldFarcFile where
  start : Nat
  length : Nat
deriving DecidableEq

/-- `FileNameIndex` in `src/farc.rs` (legacy, private): parallel
hash-to-position and name-to-position maps with no cross-linking. -/
structure OldIndex where
  file_data : List OldFarcFile
  name_crc32 : List (Nat × Nat)
  name_string : List (String × Nat)
deriving DecidableEq

/-- `FileNameIndex::default()` of the legacy index. -/
def emptyOldIndex : OldIndex := ⟨[], [], []⟩

/-- `FileNameIndex::add_file_with_hash` in `src/farc.rs` (lines 146-150):
push the extent and insert the hash binding.  There is no conflict
detection — a duplicate hash silently replaces the previous map binding. -/
def OldIndex.addFileWithHash (i : OldIndex) (hash offset length : Nat) : OldIndex :=
  ⟨i.file_data ++ [⟨offset, length⟩],
   (ainsert i.name_crc32 hash i.file_data.length).2,
   i.name_string⟩

/-- `FileNameIndex::add_file_with_name` in `src/farc.rs` (lines 152-156). -/
def OldIndex.addFileWithName (i : OldIndex) (name : String) (offset lenght : Nat) : OldIndex :=
  ⟨i.file_data ++ [⟨offset, lenght⟩],
   i.name_crc32,
   (ainsert i.name_string name i.file_data.length).2⟩

/-- `FileNameIndex::check_file_name` in `src/farc.rs` (lines 158-174); the
hash formula is the same `crc32(utf16-le(name))` as `hash_name`.  `none` is
the Rust `panic!("hash mismach ...")` on a colliding name insert (or the
impossible `unwrap` failure after `contains_key`). -/
def OldIndex.checkFileName (i : OldIndex) (name : String) : Option (OldIndex × Bool) :=
  let hash := hash_name name
  match alookup i.name_crc32 hash with
  | some _ =>
    let r := aremove i.name_crc32 hash
    match r.1 with
    | none => none
    | some file_id =>
      let r2 := ainsert i.name_string name file_id
      match r2.1 with
      | some _ => none
      | none => some (⟨i.file_data, r.2, r2.2⟩, true)
  | none => some (i, false)

/-- `FileNameIndex::get_unnamed_file_data` in `src/farc.rs` (lines 191-198):
`Vec::get` is a total lookup, no panic possible. -/
def OldIndex.getUnnamedFileData (i : OldIndex) (hash : Nat) : Option OldFarcFile :=
  match alookup i.name_crc32 hash with
  | some id => i.file_data[id]?
  | none => none

/-- `FarcError` in `src/farc.rs` (payloads of the error-source values are
dropped; the discriminating payloads are kept). -/
inductive FarcError
  | IOerror
  | InvalidType (t : Nat)
  | PartitionCreationError
  | CreateSir0Error
  | UnsuportedFat5Type (t : Nat)
  | Poisoned
  | NamedFileNotFound (n : String)
  | HashedFileNotFound (h : Nat)
  | FromUtf16Error
deriving DecidableEq

/-- Outcome of running a fallible, possibly-panicking piece of Rust:
normal return, typed error, or process abort by panic. -/
inductive POutcome (α : Type)
  | ok (a : α)
  | err (e : FarcError)
  | panicked
deriving DecidableEq

/-- Modelled from the spec: the decode half of the out-of-scope
relocatable-container codec (`pmd_sir0`, spec section 6 treats it as a black
box yielding an opaque header byte string and a payload stream).  This
concrete realization follows the SIR0 shape: the little-endian `u32`s at
region offsets 4 and 8 locate the header and footer, the header byte string
is the slice between them, and the payload is the whole region. -/
structure Sir0M where
  header : List Nat
  payload : List Nat
deriving DecidableEq

/-- Modelled from the spec: `Sir0::new` (decode). -/
def sir0Decode (region : List Nat) : Option Sir0M :=
  match readU32 region 4, readU32 region 8 with
  | some hpos, some fpos =>
    if hpos ≤ fpos ∧ fpos ≤ region.length then
      some ⟨(region.drop hpos).take (fpos - hpos), region⟩
    else none
  | _, _ => none

/-- `read_null_terminated_utf16_string`'s reading loop in `src/farc.rs`:
collect little-endian `u16`s until a zero unit; running off the end of the
stream is the `read_exact` I/O error (`none`).  `fuel` only bounds the
recursion; every call below passes `l.length + 1`, which the loop can never
exhaust since each step consumes two bytes. -/
def readUtf16Units (l : List Nat) : Nat → Nat → Option (List Nat)
  | _, 0 => none
  | pos, fuel + 1 =>
    match readU16 l pos with
    | none => none
    | some u => if u = 0 then some [] else (readUtf16Units l (pos + 2) fuel).map (u :: ·)

/-- The per-entry loop of `Farc::new` in `src/farc.rs` (lines 250-271),
iterating `file_index` over `0..file_count`: seek to
`sir0_data_offset + file_index * 12` (the `u32` multiplication wraps), read
the three little-endian `u32` fields, and insert via the legacy index; in
the name-indexed case additionally read and decode the null-terminated
UTF-16LE name.  The entry start is the wrapping `u32` sum
`all_data_offset + data_offset` (release semantics of the unchecked `+`). -/
def oldEntriesLoop (payload : List Nat) (sir0DataOfs allDataOfs fat5 : Nat) :
    Nat → Nat → OldIndex → POutcome OldIndex
  | _, 0, idx => .ok idx
  | i, rem + 1, idx =>
    let pos := sir0DataOfs + u32wrap (i * 12)
    match readU32 payload pos, readU32 payload (pos + 4), readU32 payload (pos + 8) with
    | some keyOrHash, some dataOfs, some dataLen =>
      match fat5 with
      | 0 =>
        match readUtf16Units payload keyOrHash (payload.length + 1) with
        | none => .err .IOerror
        | some units =>
          match utf16Decode units with
          | none => .err .FromUtf16Error
          | some chars =>
            oldEntriesLoop payload sir0DataOfs allDataOfs fat5 (i + 1) rem
              (idx.addFileWithName (String.mk chars) (u32wrap (allDataOfs + dataOfs)) dataLen)
      | 1 =>
        oldEntriesLoop payload sir0DataOfs allDataOfs fat5 (i + 1) rem
          (idx.addFileWithHash keyOrHash (u32wrap (allDataOfs + dataOfs)) dataLen)
      | _ => .err (.UnsuportedFat5Type fat5)
    | _, _, _ => .err .IOerror

/-- `Farc` in `src/farc.rs`: the shared file handle plus the legacy index. -/
structure OldFarc where
  file : List Nat
  index : OldIndex
deriving DecidableEq

/-- `Farc::new` in `src/farc.rs` (lines 210-274).  The out-of-scope
collaborators are modelled: partition creation fails when the requested
range overruns the file (`io_partition`), and the codec is `sir0Decode`.
The `.panicked` outcome is the Rust panic from indexing `h[0]`..`h[11]`
when the codec header `h` is shorter than 12 bytes — the source has no
length check before those indexings. -/
def farcNew (file : List Nat) : POutcome OldFarc :=
  match readU32 file 0x20 with
  | none => .err .IOerror
  | some sir0_type =>
    if sir0_type ≠ 4 ∧ sir0_type ≠ 5 then .err (.InvalidType sir0_type)
    else
      match readU32 file 0x24 with
      | none => .err .IOerror
      | some sir0_offset =>
        match readU32 file 0x28 with
        | none => .err .IOerror
        | some sir0_lenght =>
          match readU32 file 0x2C with
          | none => .err .IOerror
          | some all_data_offset =>
            if sir0_offset + sir0_lenght ≤ file.length then
              match sir0Decode ((file.drop sir0_offset).take sir0_lenght) with
              | none => .err .CreateSir0Error
              | some s =>
                if s.header.length < 12 then .panicked
                else
                  let sir0_data_offset :=
                    fromLE4 (byteAt s.header 0) (byteAt s.header 1)
                      (byteAt s.header 2) (byteAt s.header 3)
                  let file_count :=
                    fromLE4 (byteAt s.header 4) (byteAt s.header 5)
                      (byteAt s.header 6) (byteAt s.header 7)
                  let sir0_fat5_type :=
                    fromLE4 (byteAt s.header 8) (byteAt s.header 9)
                      (byteAt s.header 10) (byteAt s.header 11)
                  if sir0_fat5_type = 0 ∨ sir0_fat5_type = 1 then
                    match oldEntriesLoop s.payload sir0_data_offset all_data_offset
                        sir0_fat5_type 0 file_count emptyOldIndex with
                    | .ok idx => .ok ⟨file, idx⟩
                    | .err e => .err e
                    | .panicked => .panicked
                  else .err (.UnsuportedFat5Type sir0_fat5_type)
            else .err .PartitionCreationError

/-- `Farc::file_count_hashed` in `src/farc.rs`. -/
def OldFarc.fileCountHashed (A : OldFarc) : Nat := A.index.name_crc32.length

/-- `Farc::file_count_named` in `src/farc.rs`. -/
def OldFarc.fileCountNamed (A : OldFarc) : Nat := A.index.name_string.length

/-- `Farc::file_count` in `src/farc.rs`: literally hashed + named. -/
def OldFarc.fileCount (A : OldFarc) : Nat := A.fileCountHashed + A.fileCountNamed

/-- `Farc::check_file_name` in `src/farc.rs`: delegates to the index. -/
def OldFarc.checkFileName (A : OldFarc) (name : String) : Option (OldFarc × Bool) :=
  match OldIndex.checkFileName A.index name with
  | none => none
  | some (i', b) => some (⟨A.file, i'⟩, b)

/-- Well-formedness of a legacy index reachable from parsing: both key
lists are duplicate-free, and no name in the name map still has its hash in
the hash map (`check_file_name` moves a hash binding to a name binding). -/
def OldWF (i : OldIndex) : Prop :=
  (i.name_crc32.map Prod.fst).Nodup ∧ (i.name_string.map Prod.fst).Nodup ∧
  ∀ p ∈ i.name_string, alookup i.name_crc32 (hash_name p.1) = none

instance (i : OldIndex) : Decidable (OldWF i) := by
  unfold OldWF
  infer_instance

/-! ### Claims C1, C4, C8: behaviour of `Farc::new` on malformed input -/

/-- An embedded container region whose header byte string is empty: the
header and footer positions coincide at offset 16. -/
def c1Region : List Nat := [83, 73, 82, 48] ++ toLE4 16 ++ toLE4 16 ++ [0, 0, 0, 0]

/-- A 64-byte archive: outer type 4, embedded region at `0x30` of length 16
decoding to an empty header byte string. -/
def c1Input : List Nat :=
  List.replicate 0x20 0 ++ toLE4 4 ++ toLE4 0x30 ++ toLE4 16 ++ toLE4 0 ++ c1Region

/-- Claim C1 is violated by the code: parsing this well-formed-up-to-the-
codec byte sequence panics instead of returning a typed error, because
`Farc::new` indexes `h[0]`..`h[11]` of the codec header without any length
check.  The fuzz harness (`fuzz_target_1.rs`) requires exactly that this
never happens. -/
theorem c1_farc_new_panics_on_short_codec_header :
    farcNew c1Input = POutcome.panicked := by decide

/-- An embedded container region whose header byte string has 11 bytes
(header position 16, footer position 27). -/
def c8Region : List Nat :=
  [83, 73, 82, 48] ++ toLE4 16 ++ toLE4 27 ++ [0, 0, 0, 0] ++ List.replicate 11 0xAA

/-- A 75-byte archive whose embedded region decodes to an 11-byte header. -/
def c8Input : List Nat :=
  List.replicate 0x20 0 ++ toLE4 4 ++ toLE4 0x30 ++ toLE4 27 ++ toLE4 0 ++ c8Region

/-- Claim C8 is violated by the code: the codec returns a header byte string
of 11 bytes (< 12), and parsing panics — `src/farc.rs` has no length check
on the header and `FarcError` has no "header too short" variant at all, so
the claimed typed error cannot be produced. -/
theorem c8_short_header_panics_instead_of_typed_error :
    (sir0Decode c8Region).map (fun s => s.header.length) = some 11 ∧
    farcNew c8Input = POutcome.panicked := by decide

/-- A hash-indexed region: table at payload offset 28, one entry with hash
7, `data_offset` 1 and `data_length` 5. -/
def c4Region : List Nat :=
  [83, 73, 82, 48] ++ toLE4 16 ++ toLE4 28 ++ [0, 0, 0, 0] ++
  toLE4 28 ++ toLE4 1 ++ toLE4 1 ++
  toLE4 7 ++ toLE4 1 ++ toLE4 5

/-- An 88-byte hash-indexed archive with `all_data_offset = 0xFFFFFFFF` and
one entry with `data_offset = 1`: their 32-bit sum overflows. -/
def c4Input : List Nat :=
  List.replicate 0x20 0 ++ toLE4 4 ++ toLE4 0x30 ++ toLE4 40 ++ toLE4 4294967295 ++ c4Region

/-- Claim C4 is violated by the code: `src/farc.rs` computes the entry
start as the unchecked `all_data_offset + data_offset`.  On this input
(`0xFFFFFFFF + 1`) parsing succeeds with the silently wrapped start `0`
instead of failing with an overflow error — no overflow error variant
exists in `FarcError`.  (A debug build would abort on the same input.) -/
theorem c4_offset_addition_wraps_silently :
    readU32 c4Input 0x2C = some 4294967295 ∧
    farcNew c4Input = POutcome.ok ⟨c4Input, ⟨[⟨0, 5⟩], [(7, 0)], []⟩⟩ := by decide


/-! ### Claim C10: file counts of the legacy `Farc` -/

theorem alookup_aremove_none {κ ν : Type} [DecidableEq κ] (l : List (κ × ν)) (k k' : κ)
    (h : alookup l k' = none) : alookup (aremove l k).2 k' = none := by
  rcases hh : alookup (aremove l k).2 k' with _ | v
  · rfl
  · have hs := alookup_isSome_of_mem l k' v (mem_aremove l k (k', v) (alookup_mem _ _ _ hh))
    rw [h] at hs
    simp at hs

theorem checkFileNameOld_counts (i : OldIndex) (name : String) (hw : OldWF i) :
    ∃ i' b, OldIndex.checkFileName i name = some (i', b) ∧ OldWF i' ∧
      i'.name_crc32.length + i'.name_string.length
        = i.name_crc32.length + i.name_string.length ∧
      (b = true → i'.name_crc32.length + 1 = i.name_crc32.length ∧
                  i'.name_string.length = i.name_string.length + 1) ∧
      (b = false → i' = i) := by
  obtain ⟨hnc, hns, hinv⟩ := hw
  unfold OldIndex.checkFileName
  cases i with
  | mk fd mc ms =>
  dsimp only at hnc hns hinv ⊢
  rcases h1 : alookup mc (hash_name name) with _ | id
  · refine ⟨_, _, rfl, ⟨hnc, hns, hinv⟩, rfl, ?_, fun _ => rfl⟩
    intro hb
    exact absurd hb (by simp)
  · rw [aremove_fst, h1]
    dsimp only
    have hlook : alookup ms name = none := by
      rcases hh : alookup ms name with _ | v
      · rfl
      · have hmem := alookup_mem ms name v hh
        have := hinv (name, v) hmem
        rw [h1] at this
        exact Option.noConfusion this
    rw [ainsert_fst, hlook]
    dsimp only
    have hcrc_len : (aremove mc (hash_name name)).2.length + 1 = mc.length :=
      length_aremove_present mc (hash_name name) (by rw [h1]; rfl)
    have hstr_len : (ainsert ms name id).2.length = ms.length + 1 :=
      length_ainsert_absent ms name id hlook
    refine ⟨_, _, rfl, ⟨?_, ?_, ?_⟩, ?_, fun _ => ⟨hcrc_len, hstr_len⟩, ?_⟩
    · exact nodup_keys_aremove mc (hash_name name) hnc
    · exact nodup_keys_ainsert ms name id hns
    · intro p hp
      dsimp only at hp ⊢
      rcases mem_ainsert ms name id p hp with h2 | h2
      · subst h2
        exact alookup_aremove_self mc (hash_name name) hnc
      · exact alookup_aremove_none mc (hash_name name) (hash_name p.1) (hinv p h2)
    · dsimp only
      omega
    · intro hb
      exact absurd hb (by simp)

theorem oldLoop_hashed_shape (payload : List Nat) (d a : Nat) :
    ∀ rem i idx idx', idx.name_string = [] → (idx.name_crc32.map Prod.fst).Nodup →
      oldEntriesLoop payload d a 1 i rem idx = .ok idx' →
      idx'.name_string = [] ∧ (idx'.name_crc32.map Prod.fst).Nodup := by
  intro rem
  induction rem with
  | zero =>
    intro i idx idx' hs hn h
    unfold oldEntriesLoop at h
    injection h with h
    subst h
    exact ⟨hs, hn⟩
  | succ n ih =>
    intro i idx idx' hs hn h
    unfold oldEntriesLoop at h
    dsimp only at h
    rcases h1 : readU32 payload (d + u32wrap (i * 12)) with _ | keyOrHash
    · rw [h1] at h; exact POutcome.noConfusion h
    · rw [h1] at h
      rcases h2 : readU32 payload (d + u32wrap (i * 12) + 4) with _ | dataOfs
      · rw [h2] at h; exact POutcome.noConfusion h
      · rw [h2] at h
        rcases h3 : readU32 payload (d + u32wrap (i * 12) + 8) with _ | dataLen
        · rw [h3] at h; exact POutcome.noConfusion h
        · rw [h3] at h
          dsimp only at h
          refine ih (i + 1) _ idx' ?_ ?_ h
          · exact hs
          · exact nodup_keys_ainsert idx.name_crc32 keyOrHash idx.file_data.length hn

theorem oldLoop_named_shape (payload : List Nat) (d a : Nat) :
    ∀ rem i idx idx', idx.name_crc32 = [] → (idx.name_string.map Prod.fst).Nodup →
      oldEntriesLoop payload d a 0 i rem idx = .ok idx' →
      idx'.name_crc32 = [] ∧ (idx'.name_string.map Prod.fst).Nodup := by
  intro rem
  induction rem with
  | zero =>
    intro i idx idx' hs hn h
    unfold oldEntriesLoop at h
    injection h with h
    subst h
    exact ⟨hs, hn⟩
  | succ n ih =>
    intro i idx idx' hs hn h
    unfold oldEntriesLoop at h
    dsimp only at h
    rcases h1 : readU32 payload (d + u32wrap (i * 12)) with _ | keyOrHash
    · rw [h1] at h; exact POutcome.noConfusion h
    · rw [h1] at h
      rcases h2 : readU32 payload (d + u32wrap (i * 12) + 4) with _ | dataOfs
      · rw [h2] at h; exact POutcome.noConfusion h
      · rw [h2] at h
        rcases h3 : readU32 payload (d + u32wrap (i * 12) + 8) with _ | dataLen
        · rw [h3] at h; exact POutcome.noConfusion h
        · rw [h3] at h
          dsimp only at h
          rcases h4 : readUtf16Units payload keyOrHash (payload.length + 1) with _ | units
          · rw [h4] at h; exact POutcome.noConfusion h
          · rw [h4] at h
            dsimp only at h
            rcases h5 : utf16Decode units with _ | chars
            · rw [h5] at h; exact POutcome.noConfusion h
            · rw [h5] at h
              dsimp only at h
              refine ih (i + 1) _ idx' ?_ ?_ h
              · exact hs
              · exact nodup_keys_ainsert idx.name_string (String.mk chars)
                  idx.file_data.length hn

theorem farcNew_ok_wf (B : List Nat) (A : OldFarc) (h : farcNew B = .ok A) :
    OldWF A.index := by
  unfold farcNew at h
  rcases r1 : readU32 B 0x20 with _ | sir0_type
  · rw [r1] at h; exact POutcome.noConfusion h
  · rw [r1] at h
    try dsimp only at h
    by_cases ht : sir0_type ≠ 4 ∧ sir0_type ≠ 5
    · rw [if_pos ht] at h; exact POutcome.noConfusion h
    · rw [if_neg ht] at h
      rcases r2 : readU32 B 0x24 with _ | sir0_offset
      · rw [r2] at h; exact POutcome.noConfusion h
      · rw [r2] at h
        try dsimp only at h
        rcases r3 : readU32 B 0x28 with _ | sir0_lenght
        · rw [r3] at h; exact POutcome.noConfusion h
        · rw [r3] at h
          try dsimp only at h
          rcases r4 : readU32 B 0x2C with _ | all_data_offset
          · rw [r4] at h; exact POutcome.noConfusion h
          · rw [r4] at h
            try dsimp only at h
            by_cases hpart : sir0_offset + sir0_lenght ≤ B.length
            · rw [if_pos hpart] at h
              rcases r5 : sir0Decode ((B.drop sir0_offset).take sir0_lenght) with _ | s
              · rw [r5] at h; exact POutcome.noConfusion h
              · rw [r5] at h
                try dsimp only at h
                by_cases hh : s.header.length < 12
                · rw [if_pos hh] at h; exact POutcome.noConfusion h
                · rw [if_neg hh] at h
                  try dsimp only at h
                  by_cases hft : fromLE4 (byteAt s.header 8) (byteAt s.header 9)
                      (byteAt s.header 10) (byteAt s.header 11) = 0 ∨
                      fromLE4 (byteAt s.header 8) (byteAt s.header 9)
                      (byteAt s.header 10) (byteAt s.header 11) = 1
                  · rw [if_pos hft] at h
                    rcases hloop : oldEntriesLoop s.payload
                        (fromLE4 (byteAt s.header 0) (byteAt s.header 1)
                          (byteAt s.header 2) (byteAt s.header 3))
                        all_data_offset
                        (fromLE4 (byteAt s.header 8) (byteAt s.header 9)
                          (byteAt s.header 10) (byteAt s.header 11)) 0
                        (fromLE4 (byteAt s.header 4) (byteAt s.header 5)
                          (byteAt s.header 6) (byteAt s.header 7)) emptyOldIndex with
                      idx' | e | _
                    · rw [hloop] at h
                      try dsimp only at h
                      injection h with h
                      subst h
                      dsimp only
                      rcases hft with hft | hft
                      · rw [hft] at hloop
                        obtain ⟨hc, hn⟩ := oldLoop_named_shape s.payload _ all_data_offset
                          _ 0 emptyOldIndex idx' rfl (by simp [emptyOldIndex]) hloop
                        refine ⟨?_, hn, ?_⟩
                        · rw [hc]; simp
                        · intro p hp
                          rw [hc]
                          rfl
                      · rw [hft] at hloop
                        obtain ⟨hstr, hn⟩ := oldLoop_hashed_shape s.payload _ all_data_offset
                          _ 0 emptyOldIndex idx' rfl (by simp [emptyOldIndex]) hloop
                        refine ⟨hn, ?_, ?_⟩
                        · rw [hstr]; simp
                        · intro p hp
                          rw [hstr] at hp
                          simp at hp
                    · rw [hloop] at h; exact POutcome.noConfusion h
                    · rw [hloop] at h; exact POutcome.noConfusion h
                  · rw [if_neg hft] at h; exact POutcome.noConfusion h
            · rw [if_neg hpart] at h; exact POutcome.noConfusion h

/-- Claim C10: `Farc::file_count` equals `file_count_hashed` plus
`file_count_named` (by definition in `src/farc.rs`), every parsed `Farc`
satisfies the reachable-state invariant `OldWF`, and under that invariant
any `check_file_name` call completes without panicking and leaves the total
count unchanged: a `true` return moves exactly one entry from the hashed
count to the named count, and a `false` return changes nothing. -/
theorem c10_file_count_conserved :
    (∀ A : OldFarc, A.fileCount = A.fileCountHashed + A.fileCountNamed) ∧
    (∀ B A, farcNew B = .ok A → OldWF A.index) ∧
    (∀ (A : OldFarc) (name : String), OldWF A.index →
       ∃ A' b, OldFarc.checkFileName A name = some (A', b) ∧
         OldWF A'.index ∧
         A'.fileCount = A.fileCount ∧
         (b = true → A'.fileCountHashed + 1 = A.fileCountHashed ∧
                     A'.fileCountNamed = A.fileCountNamed + 1) ∧
         (b = false → A' = A)) := by
  refine ⟨fun A => rfl, farcNew_ok_wf, ?_⟩
  intro A name hw
  obtain ⟨i', b, hck, hwf, hsum, htrue, hfalse⟩ := checkFileNameOld_counts A.index name hw
  refine ⟨⟨A.file, i'⟩, b, ?_, hwf, ?_, ?_, ?_⟩
  · unfold OldFarc.checkFileName
    rw [hck]
  · exact hsum
  · intro hb
    exact htrue hb
  · intro hb
    have he := hfalse hb
    cases A with
    | mk fl idx =>
      dsimp only at he ⊢
      rw [he]

def c10Farc : OldFarc := ⟨[], ⟨[⟨0, 5⟩], [(hash_name "a", 0)], []⟩⟩

theorem c10_witness :
    OldWF c10Farc.index ∧
    (∃ A' b, OldFarc.checkFileName c10Farc "a" = some (A', b) ∧
       OldWF A'.index ∧
       A'.fileCount = c10Farc.fileCount ∧
       (b = true → A'.fileCountHashed + 1 = c10Farc.fileCountHashed ∧
                   A'.fileCountNamed = c10Farc.fileCountNamed + 1) ∧
       (b = false → A' = c10Farc)) :=
  ⟨by decide, c10_file_count_conserved.2.2 c10Farc "a" (by decide)⟩

/-! ### The archive writer (`src/farc_writer.rs`) -/

/-- `FarcWriterError` in `src/farc_writer.rs`. -/
inductive FarcWriterError
  | IOError
  | Sir0WriteFooterError
  | FarcErr (e : FarcError)
  | TooBig
deriving DecidableEq

/-- Modelled from the spec: `pmd_sir0::write_sir0_footer` (out-of-scope
codec, spec section 6: opaque bytes emitted from the relocation-pointer
list).  Concrete stand-in: each pointer as 4 little-endian bytes, then a
4-byte zero terminator. -/
def sir0FooterBytes (ptrs : List Nat) : List Nat :=
  (ptrs.map toLE4).flatten ++ [0, 0, 0, 0]

/-- Modelled from the spec: `pmd_sir0::write_sir0_header` (out-of-scope
codec).  Concrete stand-in consistent with `sir0Decode`: 4 magic bytes
"SIR0", then the header and footer positions little-endian. -/
def sir0HeaderBytes (hpos fpos : Nat) : List Nat :=
  [83, 73, 82, 48] ++ toLE4 hpos ++ toLE4 fpos

/-- One step of the storage-region layout in `write_hashed` (lines 70-76):
append the entry's bytes, then, when the running position is not 16-aligned,
append `position % 16` zero bytes (the code's literal padding formula). -/
def storageStep (bytes content : List Nat) : List Nat :=
  let afterContent := bytes ++ content
  if afterContent.length % 16 ≠ 0 then
    afterContent ++ List.replicate (afterContent.length % 16) 0
  else afterContent

/-- The storage-region fold of `write_hashed`: returns the storage bytes
and the per-entry `(hash, start-before-own-content, length)` records in
order. -/
def storageLayoutAux (acc : List Nat) : List (Nat × List Nat) → List Nat × List (Nat × Nat × Nat)
  | [] => (acc, [])
  | (h, c) :: t =>
    let start := acc.length
    let r := storageLayoutAux (storageStep acc c) t
    (r.1, (h, start, c.length) :: r.2)

/-- Storage layout starting from the empty storage cursor. -/
def storageLayout (ents : List (Nat × List Nat)) : List Nat × List (Nat × Nat × Nat) :=
  storageLayoutAux [] ents

/-- The per-entry meta-table bytes (lines 77-81): hash, storage-relative
start, length, each little-endian; the `try_into` conversions fail with the
"too big" error when start or length does not fit `u32`. -/
def entryBytes : List (Nat × Nat × Nat) → Except FarcWriterError (List Nat)
  | [] => .ok []
  | (h, s, l) :: t =>
    if s < U32 then
      if l < U32 then
        (entryBytes t).map (fun rest => toLE4 h ++ toLE4 s ++ toLE4 l ++ rest)
      else .error .TooBig
    else .error .TooBig

/-- The meta-region padding of `write_hashed` (lines 86-88, 95-97,
102-104): pad with `16 - position % 16` zeros when not 16-aligned. -/
def padTo16 (l : List Nat) : List Nat :=
  if l.length % 16 ≠ 0 then l ++ List.replicate (16 - l.length % 16) 0 else l

/-- The fixed outer 0x80-byte header emitted by `write_hashed`
(lines 122-136), with the three computed fields spliced in. -/
def outerHeader (metaLen storageStart storageLen : Nat) : List Nat :=
  [70, 65, 82, 67] ++ toLE4 0 ++ toLE4 0 ++ toLE4 2 ++ toLE4 0 ++ toLE4 0 ++ toLE4 7 ++
  [0xA4, 0x3C, 0xEA, 0x77] ++ toLE4 5 ++ toLE4 0x80 ++ toLE4 metaLen ++ toLE4 storageStart ++
  toLE4 (u32wrap (storageLen + 112)) ++ List.replicate (0x80 - 0x34) 0

/-- The meta region after reserving 16 bytes (12 for the codec header, 4 of
padding) and writing the entry table (`write_hashed` lines 66-82). -/
def metaA (table : List Nat) : List Nat := List.replicate 16 0 ++ table

/-- The meta region after the first 16-byte padding (lines 86-88);
its length is the embedded-header position. -/
def metaB (table : List Nat) : List Nat := padTo16 (metaA table)

/-- The meta region after the three embedded-header fields: table offset
`0x10`, entry count, table kind 1 (lines 91-93). -/
def metaC (n : Nat) (table : List Nat) : List Nat :=
  metaB table ++ toLE4 0x10 ++ toLE4 n ++ toLE4 1

/-- The meta region padded again (lines 95-97); its length is the codec
footer position. -/
def metaD (n : Nat) (table : List Nat) : List Nat := padTo16 (metaC n table)

/-- The meta region after the modelled codec footer for the pointer list
`[4, 8, end-of-table]` and the final padding (lines 99-104). -/
def metaE (n : Nat) (table : List Nat) : List Nat :=
  padTo16 (metaD n table ++ sir0FooterBytes [4, 8, (metaA table).length])

/-- The finished meta region: seek to 0 and overwrite the first 12 bytes
with the modelled codec header (lines 106-107). -/
def metaG (n : Nat) (table : List Nat) : List Nat :=
  sir0HeaderBytes (metaB table).length (metaD n table).length ++ (metaE n table).drop 12

/-- The zero padding between the meta region and the storage region: the
data offset is `0x80 + meta length` rounded up to a multiple of 256
(lines 113-120; the additions are `u32` and wrap). -/
def paddingOf (n : Nat) (table : List Nat) : Nat :=
  let noPad := u32wrap (0x80 + (metaG n table).length)
  if noPad % 256 ≠ 0 then 256 - noPad % 256 else 0

/-- The data-region start offset (`all_data_offset`) the writer records. -/
def storageStartOf (n : Nat) (table : List Nat) : Nat :=
  u32wrap (u32wrap (0x80 + (metaG n table).length) + paddingOf n table)

/-- `FarcWriter::write_hashed` (`src/farc_writer.rs` lines 59-147) on the
writer's `hash -> content` map, producing the full output byte stream.
Entries are sorted by hash (`hash_sorted.sort()`; keys are unique, so the
pair sort orders by hash); the storage and meta regions are laid out as in
the source, the modelled codec footer/header are spliced in, and every
`try_into` is an explicit `< 2^32` check failing with the "too big"
error, in source order. -/
def writeHashed (files : List (Nat × List Nat)) : Except FarcWriterError (List Nat) :=
  let sorted := files.mergeSort (fun a b => Nat.ble a.1 b.1)
  let sl := storageLayout sorted
  match entryBytes sl.2 with
  | .error e => .error e
  | .ok table =>
    if (metaA table).length < U32 then
      if (metaB table).length < U32 then
        if files.length < U32 then
          if (metaD files.length table).length < U32 then
            if (metaG files.length table).length < U32 then
              if sl.1.length < U32 then
                .ok (outerHeader (metaG files.length table).length
                      (storageStartOf files.length table) sl.1.length ++
                     metaG files.length table ++
                     List.replicate (paddingOf files.length table) 0 ++ sl.1)
              else .error .TooBig
            else .error .TooBig
          else .error .TooBig
        else .error .TooBig
      else .error .TooBig
    else .error .TooBig

/-- The additional size bound under which the round trip is proved: the
whole archive (data-region start plus storage size) stays below `2^32`, so
no 32-bit offset computation wraps on either side. -/
def roundTripFits (files : List (Nat × List Nat)) : Bool :=
  match entryBytes (storageLayout (files.mergeSort (fun a b => Nat.ble a.1 b.1))).2 with
  | .error _ => false
  | .ok table =>
    decide (0x80 + (metaG files.length table).length + 256 ≤ U32) &&
    decide (storageStartOf files.length table +
      (storageLayout (files.mergeSort (fun a b => Nat.ble a.1 b.1))).1.length < U32)

/-- Claim C7 is violated by the code: after writing a 4-byte entry the
storage cursor sits at offset 8, not at a multiple of 16, because
`write_hashed` pads with `position % 16` zero bytes instead of
`16 - position % 16` (the meta-region paddings in the same function use the
correct formula).  The recorded start offset (0, before the entry's own
padding) is as claimed. -/
theorem c7_storage_padding_not_16_aligned :
    storageLayout [(1, [9, 9, 9, 9])] = ([9, 9, 9, 9, 0, 0, 0, 0], [(1, 0, 4)]) ∧
    (storageLayout [(1, [9, 9, 9, 9])]).1.length % 16 = 8 := by decide

/-! ### The newer parser, modelled from the spec (claims C2, C3)

`src/farc_writer.rs` and the fuzz target call `Farc::iter_all_hash` and
`Farc::get_hashed_file`, which do not exist on the `Farc` in `src/farc.rs`:
the revision of `Farc` they were written against is absent from src.  That
revision's parser is modelled here from spec section 4.1 (steps 1-6),
feeding the unified `FileNameIndex` of `src/file_name_index.rs`. -/

/-- Modelled from the spec: the error kinds of the newer parser (section 7),
including the offset-overflow kind carrying both operands and the
header-too-short kind, which the legacy `FarcError` lacks.
`InvariantViolation` is the defensive returned-error conversion of the
index panic branch (design note in section 9); it is unreachable from the
empty index (claim C9). -/
inductive SpecParseError
  | IOerror
  | InvalidMagic
  | InvalidType (t : Nat)
  | PartitionCreationError
  | CodecError
  | HeaderTooShort
  | UnsupportedTableKind (t : Nat)
  | OffsetOverflow (allDataOffset dataOffset : Nat)
  | Utf16Error
  | NameConflict (e : FileNameError)
  | NotFound (hash : Nat)
  | InvariantViolation
deriving DecidableEq

/-- Modelled from the spec (section 4.1 steps 4-6): the table loop of the
newer parser.  For each entry read the three little-endian `u32` fields at
`table_offset + i*12`; `checked_add` the data offset (overflow is a hard
error carrying both operands); insert via the unified index's hash or name
path; any conflict aborts the whole parse with that conflict error. -/
def specEntriesLoop (payload : List Nat) (tableOfs allDataOfs kind : Nat) :
    Nat → Nat → FileNameIndex → Except SpecParseError FileNameIndex
  | _, 0, idx => .ok idx
  | i, rem + 1, idx =>
    let pos := tableOfs + i * 12
    match readU32 payload pos, readU32 payload (pos + 4), readU32 payload (pos + 8) with
    | some keyOrHash, some dataOfs, some dataLen =>
      if allDataOfs + dataOfs < U32 then
        match kind with
        | 0 =>
          match readUtf16Units payload keyOrHash (payload.length + 1) with
          | none => .error .IOerror
          | some units =>
            match utf16Decode units with
            | none => .error .Utf16Error
            | some chars =>
              match addFileWithName idx (String.mk chars) (allDataOfs + dataOfs) dataLen with
              | none => .error .InvariantViolation
              | some (_, some e) => .error (.NameConflict e)
              | some (idx1, none) => specEntriesLoop payload tableOfs allDataOfs kind (i + 1) rem idx1
        | 1 =>
          match addFileWithHash idx keyOrHash (allDataOfs + dataOfs) dataLen with
          | none => .error .InvariantViolation
          | some (_, some e) => .error (.NameConflict e)
          | some (idx1, none) => specEntriesLoop payload tableOfs allDataOfs kind (i + 1) rem idx1
        | k => .error (.UnsupportedTableKind k)
      else .error (.OffsetOverflow allDataOfs dataOfs)
    | _, _, _ => .error .IOerror

/-- An open archive of the newer design: the underlying bytes plus the
unified index. -/
structure SpecFarc where
  file : List Nat
  index : FileNameIndex
deriving DecidableEq

/-- Modelled from the spec (section 4.1 steps 1-6): the newer `Farc::new`.
Outer magic validated; sub-type must be 4 or 5; the embedded region is the
partition `[sir0_offset, sir0_offset+sir0_length)`; the codec (`sir0Decode`)
yields the header byte string, which must be at least 12 bytes; the table
kind must be 0 or 1; then the table loop runs from the empty unified
index. -/
def farcNewSpec (file : List Nat) : Except SpecParseError SpecFarc :=
  match readBytes file 0 4 with
  | none => .error .IOerror
  | some magic =>
    if magic ≠ [70, 65, 82, 67] then .error .InvalidMagic
    else
      match readU32 file 0x20 with
      | none => .error .IOerror
      | some sir0_type =>
        if sir0_type ≠ 4 ∧ sir0_type ≠ 5 then .error (.InvalidType sir0_type)
        else
          match readU32 file 0x24 with
          | none => .error .IOerror
          | some sir0_offset =>
            match readU32 file 0x28 with
            | none => .error .IOerror
            | some sir0_lenght =>
              match readU32 file 0x2C with
              | none => .error .IOerror
              | some all_data_offset =>
                if sir0_offset + sir0_lenght ≤ file.length then
                  match sir0Decode ((file.drop sir0_offset).take sir0_lenght) with
                  | none => .error .CodecError
                  | some s =>
                    if s.header.length < 12 then .error .HeaderTooShort
                    else
                      let tableOfs :=
                        fromLE4 (byteAt s.header 0) (byteAt s.header 1)
                          (byteAt s.header 2) (byteAt s.header 3)
                      let count :=
                        fromLE4 (byteAt s.header 4) (byteAt s.header 5)
                          (byteAt s.header 6) (byteAt s.header 7)
                      let kind :=
                        fromLE4 (byteAt s.header 8) (byteAt s.header 9)
                          (byteAt s.header 10) (byteAt s.header 11)
                      if kind = 0 ∨ kind = 1 then
                        match specEntriesLoop s.payload tableOfs all_data_offset kind
                            0 count emptyIndex with
                        | .ok idx => .ok ⟨file, idx⟩
                        | .error e => .error e
                      else .error (.UnsupportedTableKind kind)
                else .error .PartitionCreationError

/-- Modelled from the spec (section 4.1, "a lazy sequence of all hashes"):
`iter_all_hash` — the `name_hash` of every entry in entry order. -/
def iterAllHash (A : SpecFarc) : List Nat := A.index.file_data.map (·.name_hash)

/-- Modelled from the spec (section 4.3): `get_hashed_file` followed by
reading the partitioned view to the end — resolve the hash through the
unified index, then return the bytes `[start, start+length)` of the
underlying archive; a miss is a not-found error and an out-of-range extent
is a partition-creation error. -/
def readHashedFile (A : SpecFarc) (hash : Nat) : Except SpecParseError (List Nat) :=
  match getFileByHash A.index hash with
  | none => .error .InvariantViolation
  | some none => .error (.NotFound hash)
  | some (some f) =>
    match readBytes A.file f.start f.length with
    | none => .error .PartitionCreationError
    | some content => .ok content

/-- `FarcWriter::new_from_farc` (`src/farc_writer.rs` lines 40-51): drain
every hash into the writer map via `add_hashed_file` (`HashMap::insert`); a
read failure anywhere aborts with that error.  The iteration and the read
go through the spec-modelled `iter_all_hash` / `get_hashed_file`. -/
def newFromFarcAux (A : SpecFarc) : List Nat → List (Nat × List Nat) →
    Except SpecParseError (List (Nat × List Nat))
  | [], acc => .ok acc
  | h :: t, acc =>
    match readHashedFile A h with
    | .error e => .error e
    | .ok content => newFromFarcAux A t (ainsert acc h content).2

/-- The writer map built from an open archive (`new_from_farc`). -/
def newFromFarc (A : SpecFarc) : Except SpecParseError (List (Nat × List Nat)) :=
  newFromFarcAux A (iterAllHash A) []


/-! ### Claim C3: duplicate hashes abort the parse -/

theorem addFile_ok_shape (i : FileNameIndex) (f : FarcFile) (i' : FileNameIndex)
    (h : addFile i f = some (i', none)) :
    alookup i.file_id_by_crc32 f.name_hash = none ∧
    i'.file_data = i.file_data ++ [f] ∧
    i'.file_id_by_crc32 = (ainsert i.file_id_by_crc32 f.name_hash i.file_data.length).2 := by
  unfold addFile at h
  cases i with
  | mk fd mc ms =>
  cases hn : f.name with
  | some n =>
    simp only [hn] at h
    rcases h1 : alookup ms n with _ | old_name_id
    · rw [show (ainsert ms n fd.length).1 = alookup ms n from ainsert_fst .., h1] at h
      dsimp only at h
      rcases h2 : alookup mc f.name_hash with _ | old_hash_id
      · rw [show (ainsert mc f.name_hash fd.length).1 = alookup mc f.name_hash from
          ainsert_fst .., h2] at h
        dsimp only at h
        injection h with h
        injection h with h he
        rw [← h]
        exact ⟨rfl, rfl, rfl⟩
      · rw [show (ainsert mc f.name_hash fd.length).1 = alookup mc f.name_hash from
          ainsert_fst .., h2] at h
        dsimp only at h
        rcases h3 : fd[old_hash_id]? with _ | old_file
        · rw [h3] at h; simp at h
        · rw [h3] at h
          dsimp only at h
          injection h with h
          injection h with h he
          simp at he
    · rw [show (ainsert ms n fd.length).1 = alookup ms n from ainsert_fst .., h1] at h
      dsimp only at h
      injection h with h
      injection h with h he
      simp at he
  | none =>
    simp only [hn] at h
    rcases h2 : alookup mc f.name_hash with _ | old_hash_id
    · rw [show (ainsert mc f.name_hash fd.length).1 = alookup mc f.name_hash from
        ainsert_fst .., h2] at h
      dsimp only at h
      injection h with h
      injection h with h he
      rw [← h]
      exact ⟨rfl, rfl, rfl⟩
    · rw [show (ainsert mc f.name_hash fd.length).1 = alookup mc f.name_hash from
        ainsert_fst .., h2] at h
      dsimp only at h
      rcases h3 : fd[old_hash_id]? with _ | old_file
      · rw [h3] at h; simp at h
      · rw [h3] at h
        dsimp only at h
        injection h with h
        injection h with h he
        simp at he

theorem addFileWithHash_conflict (i : FileNameIndex) (h o l : Nat) (hw : WFIndex i)
    (hs : (alookup i.file_id_by_crc32 h).isSome) :
    ∃ e, addFileWithHash i h o l = some (i, some e) ∧
      (e = FileNameError.HashAlreadyPresent h ∨
       ∃ n, e = FileNameError.HashAlreadyPresentOne h n) := by
  obtain ⟨hwc, hws⟩ := hw
  unfold addFileWithHash addFile FarcFile.new
  cases i with
  | mk fd mc ms =>
  dsimp only at hwc hws ⊢
  rcases h2 : alookup mc h with _ | old_id
  · rw [h2] at hs; simp at hs
  · rw [show (ainsert mc h fd.length).1 = alookup mc h from ainsert_fst .., h2]
    dsimp only
    have hlt : old_id < fd.length := hwc _ (alookup_mem mc h old_id h2)
    rw [List.getElem?_eq_getElem hlt]
    dsimp only
    rw [ainsert_restore mc h fd.length old_id h2]
    rcases hname : fd[old_id].name with _ | n
    · exact ⟨_, rfl, Or.inl rfl⟩
    · exact ⟨_, rfl, Or.inr ⟨n, rfl⟩⟩

def HashesInv (i : FileNameIndex) : Prop :=
  ∀ h, (alookup i.file_id_by_crc32 h).isSome ↔ h ∈ i.file_data.map (fun f => f.name_hash)

theorem addFile_ok_preserves (i : FileNameIndex) (f : FarcFile) (i' : FileNameIndex)
    (hw : WFIndex i) (hinv : HashesInv i)
    (hnd : (i.file_data.map (fun f => f.name_hash)).Nodup)
    (h : addFile i f = some (i', none)) :
    WFIndex i' ∧ HashesInv i' ∧ (i'.file_data.map (fun f => f.name_hash)).Nodup := by
  obtain ⟨hnone, hfd, hmc⟩ := addFile_ok_shape i f i' h
  obtain ⟨r, hr, hwr⟩ := addFile_wf i f hw
  have hri : r = (i', none) := by
    have := hr.symm.trans h
    injection this
  subst hri
  have hnotmem : f.name_hash ∉ i.file_data.map (fun f => f.name_hash) := by
    intro hm
    have := (hinv f.name_hash).mpr hm
    rw [hnone] at this
    simp at this
  refine ⟨hwr, ?_, ?_⟩
  · intro h'
    rw [hmc, hfd]
    by_cases he : h' = f.name_hash
    · subst he
      rw [alookup_ainsert_self]
      simp
    · rw [alookup_ainsert_ne i.file_id_by_crc32 f.name_hash h' i.file_data.length
        (fun hh => he hh)]
      rw [List.map_append, List.mem_append]
      constructor
      · intro hh
        exact Or.inl ((hinv h').mp hh)
      · intro hh
        rcases hh with hh | hh
        · exact (hinv h').mpr hh
        · simp at hh
          exact absurd hh he
  · rw [hfd, List.map_append]
    simp only [List.map_cons, List.map_nil]
    rw [List.nodup_append]
    refine ⟨hnd, List.nodup_singleton _, ?_⟩
    intro a ha hb
    simp only [List.mem_singleton] at hb
    subst hb
    exact hnotmem ha

theorem specLoop_preserves (payload : List Nat) (tOfs aOfs kind : Nat)
    (hkind : kind = 0 ∨ kind = 1) :
    ∀ rem i idx idx', WFIndex idx → HashesInv idx →
      (idx.file_data.map (fun f => f.name_hash)).Nodup →
      specEntriesLoop payload tOfs aOfs kind i rem idx = .ok idx' →
      WFIndex idx' ∧ HashesInv idx' ∧ (idx'.file_data.map (fun f => f.name_hash)).Nodup := by
  intro rem
  induction rem with
  | zero =>
    intro i idx idx' hw hinv hnd h
    unfold specEntriesLoop at h
    injection h with h
    subst h
    exact ⟨hw, hinv, hnd⟩
  | succ n ih =>
    intro i idx idx' hw hinv hnd h
    unfold specEntriesLoop at h
    dsimp only at h
    rcases h1 : readU32 payload (tOfs + i * 12) with _ | keyOrHash
    · rw [h1] at h; exact Except.noConfusion h
    · rw [h1] at h
      rcases h2 : readU32 payload (tOfs + i * 12 + 4) with _ | dataOfs
      · rw [h2] at h; exact Except.noConfusion h
      · rw [h2] at h
        rcases h3 : readU32 payload (tOfs + i * 12 + 8) with _ | dataLen
        · rw [h3] at h; exact Except.noConfusion h
        · rw [h3] at h
          dsimp only at h
          by_cases hov : aOfs + dataOfs < U32
          · rw [if_pos hov] at h
            rcases hkind with hk | hk
            · subst hk
              dsimp only at h
              rcases h4 : readUtf16Units payload keyOrHash (payload.length + 1) with _ | units
              · rw [h4] at h; exact Except.noConfusion h
              · rw [h4] at h
                dsimp only at h
                rcases h5 : utf16Decode units with _ | chars
                · rw [h5] at h; exact Except.noConfusion h
                · rw [h5] at h
                  dsimp only at h
                  rcases h6 : addFileWithName idx (String.mk chars) (aOfs + dataOfs) dataLen with
                    _ | r
                  · rw [h6] at h; exact Except.noConfusion h
                  · rw [h6] at h
                    obtain ⟨idx1, e?⟩ := r
                    rcases he : e? with _ | e
                    · subst he
                      dsimp only at h
                      obtain ⟨hw1, hinv1, hnd1⟩ := addFile_ok_preserves idx _ idx1 hw hinv hnd h6
                      exact ih (i + 1) idx1 idx' hw1 hinv1 hnd1 h
                    · subst he
                      dsimp only at h
                      exact Except.noConfusion h
            · subst hk
              dsimp only at h
              rcases h6 : addFileWithHash idx keyOrHash (aOfs + dataOfs) dataLen with _ | r
              · rw [h6] at h; exact Except.noConfusion h
              · rw [h6] at h
                obtain ⟨idx1, e?⟩ := r
                rcases he : e? with _ | e
                · subst he
                  dsimp only at h
                  obtain ⟨hw1, hinv1, hnd1⟩ := addFile_ok_preserves idx _ idx1 hw hinv hnd h6
                  exact ih (i + 1) idx1 idx' hw1 hinv1 hnd1 h
                · subst he
                  dsimp only at h
                  exact Except.noConfusion h
          · rw [if_neg hov] at h
            exact Except.noConfusion h

theorem farcNewSpec_ok_nodup (B : List Nat) (A : SpecFarc) (h : farcNewSpec B = .ok A) :
    WFIndex A.index ∧ (A.index.file_data.map (fun f => f.name_hash)).Nodup := by
  unfold farcNewSpec at h
  rcases r0 : readBytes B 0 4 with _ | magic
  · rw [r0] at h; exact Except.noConfusion h
  · rw [r0] at h
    try dsimp only at h
    by_cases hmg : magic ≠ [70, 65, 82, 67]
    · rw [if_pos hmg] at h; exact Except.noConfusion h
    · rw [if_neg hmg] at h
      rcases r1 : readU32 B 0x20 with _ | sir0_type
      · rw [r1] at h; exact Except.noConfusion h
      · rw [r1] at h
        try dsimp only at h
        by_cases ht : sir0_type ≠ 4 ∧ sir0_type ≠ 5
        · rw [if_pos ht] at h; exact Except.noConfusion h
        · rw [if_neg ht] at h
          rcases r2 : readU32 B 0x24 with _ | sir0_offset
          · rw [r2] at h; exact Except.noConfusion h
          · rw [r2] at h
            try dsimp only at h
            rcases r3 : readU32 B 0x28 with _ | sir0_lenght
            · rw [r3] at h; exact Except.noConfusion h
            · rw [r3] at h
              try dsimp only at h
              rcases r4 : readU32 B 0x2C with _ | all_data_offset
              · rw [r4] at h; exact Except.noConfusion h
              · rw [r4] at h
                try dsimp only at h
                by_cases hpart : sir0_offset + sir0_lenght ≤ B.length
                · rw [if_pos hpart] at h
                  rcases r5 : sir0Decode ((B.drop sir0_offset).take sir0_lenght) with _ | s
                  · rw [r5] at h; exact Except.noConfusion h
                  · rw [r5] at h
                    try dsimp only at h
                    by_cases hh : s.header.length < 12
                    · rw [if_pos hh] at h; exact Except.noConfusion h
                    · rw [if_neg hh] at h
                      try dsimp only at h
                      by_cases hft : fromLE4 (byteAt s.header 8) (byteAt s.header 9)
                          (byteAt s.header 10) (byteAt s.header 11) = 0 ∨
                          fromLE4 (byteAt s.header 8) (byteAt s.header 9)
                          (byteAt s.header 10) (byteAt s.header 11) = 1
                      · rw [if_pos hft] at h
                        rcases hloop : specEntriesLoop s.payload
                            (fromLE4 (byteAt s.header 0) (byteAt s.header 1)
                              (byteAt s.header 2) (byteAt s.header 3))
                            all_data_offset
                            (fromLE4 (byteAt s.header 8) (byteAt s.header 9)
                              (byteAt s.header 10) (byteAt s.header 11)) 0
                            (fromLE4 (byteAt s.header 4) (byteAt s.header 5)
                              (byteAt s.header 6) (byteAt s.header 7)) emptyIndex with
                          e | idx'
                        · rw [hloop] at h; exact Except.noConfusion h
                        · rw [hloop] at h
                          try dsimp only at h
                          injection h with h
                          subst h
                          dsimp only
                          have hstart : WFIndex emptyIndex ∧ HashesInv emptyIndex ∧
                              ((emptyIndex.file_data.map (fun f => f.name_hash)).Nodup) := by
                            refine ⟨⟨?_, ?_⟩, ?_, ?_⟩
                            · intro p hp; simp [emptyIndex] at hp
                            · intro p hp; simp [emptyIndex] at hp
                            · intro hsh; simp [emptyIndex, alookup]
                            · simp [emptyIndex]
                          obtain ⟨hw', hinv', hnd'⟩ := specLoop_preserves s.payload _
                            all_data_offset _ hft _ 0 emptyIndex idx'
                            hstart.1 hstart.2.1 hstart.2.2 hloop
                          exact ⟨hw', hnd'⟩
                      · rw [if_neg hft] at h; exact Except.noConfusion h
                · rw [if_neg hpart] at h; exact Except.noConfusion h

/-- Claim C3: inserting a table entry whose hash is already present in the
index fails with a hash-conflict error and leaves the index unchanged; the
table loop of the (spec-modelled) parser then aborts the whole parse with
that conflict error wrapped as the parse error, so a partially built index
is never returned (`Except.error` carries no index); and every index a
successful parse does return has pairwise-distinct `name_hash` values. -/
theorem c3_duplicate_hash_aborts_parse :
    (∀ idx hash offset lenght, WFIndex idx → (alookup idx.file_id_by_crc32 hash).isSome →
       ∃ e, addFileWithHash idx hash offset lenght = some (idx, some e) ∧
         (e = FileNameError.HashAlreadyPresent hash ∨
          ∃ n, e = FileNameError.HashAlreadyPresentOne hash n)) ∧
    (∀ payload tOfs aOfs i rem idx keyOrHash dataOfs dataLen,
       WFIndex idx →
       readU32 payload (tOfs + i * 12) = some keyOrHash →
       readU32 payload (tOfs + i * 12 + 4) = some dataOfs →
       readU32 payload (tOfs + i * 12 + 8) = some dataLen →
       aOfs + dataOfs < U32 →
       (alookup idx.file_id_by_crc32 keyOrHash).isSome →
       ∃ e, specEntriesLoop payload tOfs aOfs 1 i (rem + 1) idx =
           .error (.NameConflict e) ∧
         (e = FileNameError.HashAlreadyPresent keyOrHash ∨
          ∃ n, e = FileNameError.HashAlreadyPresentOne keyOrHash n)) ∧
    (∀ B A, farcNewSpec B = .ok A →
       WFIndex A.index ∧ (A.index.file_data.map (fun f => f.name_hash)).Nodup) := by
  refine ⟨addFileWithHash_conflict, ?_, farcNewSpec_ok_nodup⟩
  intro payload tOfs aOfs i rem idx keyOrHash dataOfs dataLen hw h1 h2 h3 hov hs
  obtain ⟨e, hadd, hfam⟩ := addFileWithHash_conflict idx keyOrHash (aOfs + dataOfs) dataLen hw hs
  refine ⟨e, ?_, hfam⟩
  unfold specEntriesLoop
  try dsimp only
  rw [h1, h2, h3]
  try dsimp only
  rw [if_pos hov]
  try dsimp only
  rw [hadd]

def c3Index : FileNameIndex := ⟨[⟨0, 1, 7, none⟩], [(7, 0)], []⟩

def c3Payload : List Nat := toLE4 7 ++ toLE4 0 ++ toLE4 1

theorem c3_witness :
    WFIndex c3Index ∧
    (∃ e, specEntriesLoop c3Payload 0 0 1 0 1 c3Index =
        Except.error (SpecParseError.NameConflict e) ∧
      (e = FileNameError.HashAlreadyPresent 7 ∨
       ∃ n, e = FileNameError.HashAlreadyPresentOne 7 n)) :=
  ⟨by decide,
   c3_duplicate_hash_aborts_parse.2.1 c3Payload 0 0 0 0 c3Index 7 0 1 (by decide) (by decide) (by decide)
     (by decide) (by decide) (by decide)⟩


theorem byteAt_append_left (x y : List Nat) (p : Nat) (h : p < x.length) :
    byteAt (x ++ y) p = byteAt x p := by
  unfold byteAt
  rw [List.getD_eq_getElem?_getD, List.getD_eq_getElem?_getD, List.getElem?_append, if_pos h]

theorem byteAt_append_right (x y : List Nat) (k : Nat) :
    byteAt (x ++ y) (x.length + k) = byteAt y k := by
  unfold byteAt
  rw [List.getD_eq_getElem?_getD, List.getD_eq_getElem?_getD, List.getElem?_append,
    if_neg (by omega)]
  congr 1
  congr 1
  omega

theorem readU32_append_left (x y : List Nat) (p : Nat) (h : p + 4 ≤ x.length) :
    readU32 (x ++ y) p = readU32 x p := by
  unfold readU32
  rw [if_pos (by simp; omega), if_pos h,
    byteAt_append_left x y p (by omega), byteAt_append_left x y (p + 1) (by omega),
    byteAt_append_left x y (p + 2) (by omega), byteAt_append_left x y (p + 3) (by omega)]

theorem readU32_append_right (x y : List Nat) (k : Nat) :
    readU32 (x ++ y) (x.length + k) = readU32 y k := by
  unfold readU32
  have e1 : x.length + k + 1 = x.length + (k + 1) := by omega
  have e2 : x.length + k + 2 = x.length + (k + 2) := by omega
  have e3 : x.length + k + 3 = x.length + (k + 3) := by omega
  rw [e1, e2, e3, byteAt_append_right, byteAt_append_right, byteAt_append_right,
    byteAt_append_right]
  by_cases h : k + 4 ≤ y.length
  · rw [if_pos (by simp; omega), if_pos h]
  · rw [if_neg (by simp; omega), if_neg h]

theorem readBytes_append_left (x y : List Nat) (p n : Nat) (h : p + n ≤ x.length) :
    readBytes (x ++ y) p n = readBytes x p n := by
  unfold readBytes
  rw [if_pos (by simp; omega), if_pos h]
  congr 1
  rw [List.drop_append_of_le_length (by omega), List.take_append_of_le_length (by
    rw [List.length_drop]; omega)]

theorem readBytes_append_right (x y : List Nat) (k n : Nat) :
    readBytes (x ++ y) (x.length + k) n = readBytes y k n := by
  unfold readBytes
  rw [List.drop_append]
  by_cases h : k + n ≤ y.length
  · rw [if_pos (by simp; omega), if_pos h]
  · rw [if_neg (by simp; omega), if_neg h]

theorem fromLE4_toLE4 (n : Nat) (h : n < U32) :
    fromLE4 (n % 256) (n / 256 % 256) (n / 65536 % 256) (n / 16777216 % 256) = n := by
  unfold fromLE4 U32 at *
  omega

theorem readU32_toLE4 (n : Nat) (r : List Nat) (h : n < U32) :
    readU32 (toLE4 n ++ r) 0 = some n := by
  unfold readU32 toLE4
  rw [if_pos (by simp)]
  show some (fromLE4 (byteAt ([n % 256, n / 256 % 256, n / 65536 % 256,
    n / 16777216 % 256] ++ r) 0) _ _ _) = some n
  simp only [byteAt, List.getD_eq_getElem?_getD]
  simp only [List.cons_append, List.nil_append, List.getElem?_cons_zero,
    List.getElem?_cons_succ, Option.getD_some]
  rw [fromLE4_toLE4 n h]

theorem padTo16_shape (l : List Nat) :
    ∃ k, padTo16 l = l ++ List.replicate k 0 ∧ (padTo16 l).length % 16 = 0 ∧ k < 16 := by
  unfold padTo16
  by_cases h : l.length % 16 ≠ 0
  · rw [if_pos h]
    refine ⟨16 - l.length % 16, rfl, ?_, by omega⟩
    rw [List.length_append, List.length_replicate]
    omega
  · rw [if_neg h]
    exact ⟨0, by simp, by simp at h; simpa using h, by omega⟩

theorem mergeSort_pair {α : Type} (le : α → α → Bool) (a b : α)
    (htrans : ∀ x y z : α, le x y = true → le y z = true → le x z = true)
    (htotal : ∀ x y : α, (le x y || le y x) = true)
    (hab : le a b = true) (hba : le b a = false) :
    List.mergeSort [a, b] le = [a, b] := by
  have hperm : (List.mergeSort [a, b] le).Perm [a, b] := List.mergeSort_perm [a, b] le
  have hsorted := List.sorted_mergeSort htrans htotal [a, b]
  have hlen : (List.mergeSort [a, b] le).length = 2 := by rw [hperm.length_eq]; rfl
  obtain ⟨x, y, hxy⟩ := List.length_eq_two.mp hlen
  rw [hxy] at hperm hsorted ⊢
  have hxmem : x ∈ [a, b] := hperm.subset (List.mem_cons_self _ _)
  rcases List.mem_cons.mp hxmem with hx | hx
  · subst hx
    have hyb : [y].Perm [b] := hperm.cons_inv
    have hy : y = b := by
      have := hyb.subset (List.mem_cons_self _ _)
      simpa using this
    rw [hy]
  · simp only [List.mem_singleton] at hx
    subst hx
    have ha : a ∈ [x, y] := hperm.symm.subset (List.mem_cons_self _ _)
    rcases List.mem_cons.mp ha with h1 | h1
    · subst h1
      rw [hab] at hba
      exact Bool.noConfusion hba
    · simp only [List.mem_singleton] at h1
      subst h1
      rw [List.pairwise_cons] at hsorted
      have := hsorted.1 a (List.mem_singleton.mpr rfl)
      rw [hba] at this
      exact Bool.noConfusion this

instance {ε α : Type} [DecidableEq ε] [DecidableEq α] : DecidableEq (Except ε α)
  | .error e1, .error e2 =>
    if h : e1 = e2 then .isTrue (by rw [h]) else .isFalse (by intro hc; injection hc; exact h (by assumption))
  | .error e1, .ok a2 => .isFalse (by intro hc; exact Except.noConfusion hc)
  | .ok a1, .error e2 => .isFalse (by intro hc; exact Except.noConfusion hc)
  | .ok a1, .ok a2 =>
    if h : a1 = a2 then .isTrue (by rw [h]) else .isFalse (by intro hc; injection hc; exact h (by assumption))

def c2L : Nat := 4294967040

def c2ContentA : List Nat := List.replicate c2L 65

def c2Head16 : List Nat := [70, 65, 82, 67] ++ List.replicate 12 0

def c2Region : List Nat :=
  [83, 73, 82, 48] ++ toLE4 16 ++ toLE4 28 ++ [0, 0, 0, 0] ++
  toLE4 32 ++ toLE4 2 ++ toLE4 1 ++ [0, 0, 0, 0] ++
  toLE4 0 ++ toLE4 256 ++ toLE4 c2L ++
  toLE4 1 ++ toLE4 0 ++ toLE4 16

def c2Pre : List Nat :=
  [70, 65, 82, 67] ++ List.replicate 28 0 ++
  toLE4 5 ++ toLE4 0x80 ++ toLE4 56 ++ toLE4 0 ++
  List.replicate 80 0 ++
  c2Region ++
  List.replicate 72 0

def c2B0 : List Nat := c2Pre ++ c2ContentA

def c2Idx : FileNameIndex :=
  ⟨[⟨256, c2L, 0, none⟩, ⟨0, 16, 1, none⟩], [(0, 0), (1, 1)], []⟩

def c2A0 : SpecFarc := ⟨c2B0, c2Idx⟩

def c2M : List (Nat × List Nat) := [(0, c2ContentA), (1, c2Head16)]

set_option maxRecDepth 10000 in
theorem c2Pre_length : c2Pre.length = 256 := by decide

theorem c2ContentA_length : c2ContentA.length = c2L := by
  unfold c2ContentA
  exact List.length_replicate c2L 65

theorem c2B0_length : c2B0.length = 256 + c2L := by
  unfold c2B0
  rw [List.length_append, c2Pre_length, c2ContentA_length]

theorem readBytes_all (l : List Nat) : readBytes l 0 l.length = some l := by
  unfold readBytes
  rw [if_pos (by omega)]
  simp


theorem farcNewSpec_eval_ok (file : List Nat) (t so sl ad : Nat) (s : Sir0M)
    (idx : FileNameIndex)
    (h0 : readBytes file 0 4 = some [70, 65, 82, 67])
    (h1 : readU32 file 0x20 = some t) (ht : ¬(t ≠ 4 ∧ t ≠ 5))
    (h2 : readU32 file 0x24 = some so) (h3 : readU32 file 0x28 = some sl)
    (h4 : readU32 file 0x2C = some ad)
    (h5 : so + sl ≤ file.length)
    (h6 : sir0Decode ((file.drop so).take sl) = some s)
    (h7 : ¬s.header.length < 12)
    (h8 : fromLE4 (byteAt s.header 8) (byteAt s.header 9) (byteAt s.header 10)
        (byteAt s.header 11) = 0 ∨
      fromLE4 (byteAt s.header 8) (byteAt s.header 9) (byteAt s.header 10)
        (byteAt s.header 11) = 1)
    (h9 : specEntriesLoop s.payload
        (fromLE4 (byteAt s.header 0) (byteAt s.header 1) (byteAt s.header 2)
          (byteAt s.header 3)) ad
        (fromLE4 (byteAt s.header 8) (byteAt s.header 9) (byteAt s.header 10)
          (byteAt s.header 11)) 0
        (fromLE4 (byteAt s.header 4) (byteAt s.header 5) (byteAt s.header 6)
          (byteAt s.header 7)) emptyIndex = .ok idx) :
    farcNewSpec file = .ok ⟨file, idx⟩ := by
  unfold farcNewSpec
  rw [h0]
  try dsimp only
  rw [if_neg (by simp)]
  rw [h1]
  try dsimp only
  rw [if_neg ht, h2]
  try dsimp only
  rw [h3]
  try dsimp only
  rw [h4]
  try dsimp only
  rw [if_pos h5, h6]
  try dsimp only
  rw [if_neg h7]
  try dsimp only
  rw [if_pos h8, h9]

theorem farcNewSpec_eval_err (file : List Nat) (t so sl ad : Nat) (s : Sir0M)
    (err : SpecParseError)
    (h0 : readBytes file 0 4 = some [70, 65, 82, 67])
    (h1 : readU32 file 0x20 = some t) (ht : ¬(t ≠ 4 ∧ t ≠ 5))
    (h2 : readU32 file 0x24 = some so) (h3 : readU32 file 0x28 = some sl)
    (h4 : readU32 file 0x2C = some ad)
    (h5 : so + sl ≤ file.length)
    (h6 : sir0Decode ((file.drop so).take sl) = some s)
    (h7 : ¬s.header.length < 12)
    (h8 : fromLE4 (byteAt s.header 8) (byteAt s.header 9) (byteAt s.header 10)
        (byteAt s.header 11) = 0 ∨
      fromLE4 (byteAt s.header 8) (byteAt s.header 9) (byteAt s.header 10)
        (byteAt s.header 11) = 1)
    (h9 : specEntriesLoop s.payload
        (fromLE4 (byteAt s.header 0) (byteAt s.header 1) (byteAt s.header 2)
          (byteAt s.header 3)) ad
        (fromLE4 (byteAt s.header 8) (byteAt s.header 9) (byteAt s.header 10)
          (byteAt s.header 11)) 0
        (fromLE4 (byteAt s.header 4) (byteAt s.header 5) (byteAt s.header 6)
          (byteAt s.header 7)) emptyIndex = .error err) :
    farcNewSpec file = .error err := by
  unfold farcNewSpec
  rw [h0]
  try dsimp only
  rw [if_neg (by simp)]
  rw [h1]
  try dsimp only
  rw [if_neg ht, h2]
  try dsimp only
  rw [h3]
  try dsimp only
  rw [h4]
  try dsimp only
  rw [if_pos h5, h6]
  try dsimp only
  rw [if_neg h7]
  try dsimp only
  rw [if_pos h8, h9]

theorem writeHashed_eval (files sorted : List (Nat × List Nat)) (storage : List Nat)
    (entries : List (Nat × Nat × Nat)) (table : List Nat)
    (hs : files.mergeSort (fun a b => Nat.ble a.1 b.1) = sorted)
    (hsl : storageLayout sorted = (storage, entries))
    (ht : entryBytes entries = .ok table)
    (c1 : (metaA table).length < U32) (c2 : (metaB table).length < U32)
    (c3 : files.length < U32) (c4 : (metaD files.length table).length < U32)
    (c5 : (metaG files.length table).length < U32) (c6 : storage.length < U32) :
    writeHashed files = .ok (outerHeader (metaG files.length table).length
      (storageStartOf files.length table) storage.length ++
      metaG files.length table ++ List.replicate (paddingOf files.length table) 0 ++
      storage) := by
  unfold writeHashed
  rw [hs]
  try dsimp only
  rw [hsl]
  try dsimp only
  rw [ht]
  try dsimp only
  rw [if_pos c1, if_pos c2, if_pos c3, if_pos c4, if_pos c5, if_pos c6]

theorem readHashedFile_eval (A : SpecFarc) (h : Nat) (f : FarcFile) (c : List Nat)
    (hget : getFileByHash A.index h = some (some f))
    (hread : readBytes A.file f.start f.length = some c) :
    readHashedFile A h = .ok c := by
  unfold readHashedFile
  rw [hget]
  try dsimp only
  rw [hread]

theorem newFromFarcAux_cons (A : SpecFarc) (h : Nat) (t : List Nat)
    (acc : List (Nat × List Nat)) (c : List Nat)
    (hr : readHashedFile A h = .ok c) :
    newFromFarcAux A (h :: t) acc = newFromFarcAux A t (ainsert acc h c).2 := by
  conv_lhs => rw [newFromFarcAux]
  rw [hr]

def c2Hdr : List Nat := toLE4 32 ++ toLE4 2 ++ toLE4 1

set_option maxRecDepth 100000 in
theorem c2B0_parse : farcNewSpec c2B0 = .ok c2A0 := by
  have hL : c2L = 4294967040 := rfl
  have hsplit : c2B0 = c2Pre ++ c2ContentA := rfl
  have hh0 : readBytes c2B0 0 4 = some [70, 65, 82, 67] := by
    rw [hsplit, readBytes_append_left c2Pre c2ContentA 0 4 (by rw [c2Pre_length]; omega)]
    decide
  have hh1 : readU32 c2B0 0x20 = some 5 := by
    rw [hsplit, readU32_append_left c2Pre c2ContentA 0x20 (by rw [c2Pre_length]; omega)]
    decide
  have hh2 : readU32 c2B0 0x24 = some 128 := by
    rw [hsplit, readU32_append_left c2Pre c2ContentA 0x24 (by rw [c2Pre_length]; omega)]
    decide
  have hh3 : readU32 c2B0 0x28 = some 56 := by
    rw [hsplit, readU32_append_left c2Pre c2ContentA 0x28 (by rw [c2Pre_length]; omega)]
    decide
  have hh4 : readU32 c2B0 0x2C = some 0 := by
    rw [hsplit, readU32_append_left c2Pre c2ContentA 0x2C (by rw [c2Pre_length]; omega)]
    decide
  have hh5 : 128 + 56 ≤ c2B0.length := by
    rw [c2B0_length]
    omega
  have hh6 : sir0Decode ((c2B0.drop 128).take 56) = some ⟨c2Hdr, c2Region⟩ := by
    rw [hsplit, List.drop_append_of_le_length (by rw [c2Pre_length]; omega),
      List.take_append_of_le_length (by rw [List.length_drop, c2Pre_length]; omega)]
    decide
  exact farcNewSpec_eval_ok c2B0 5 128 56 0 ⟨c2Hdr, c2Region⟩ c2Idx hh0 hh1 (by decide)
    hh2 hh3 hh4 hh5 hh6 (by decide) (by decide) (by decide)

set_option maxRecDepth 100000 in
theorem c2_build : newFromFarc c2A0 = .ok c2M := by
  have hr0 : readHashedFile c2A0 0 = .ok c2ContentA := by
    apply readHashedFile_eval c2A0 0 ⟨256, c2L, 0, none⟩ c2ContentA rfl
    show readBytes c2B0 256 c2L = some c2ContentA
    rw [show c2B0 = c2Pre ++ c2ContentA from rfl]
    rw [show (256 : Nat) = c2Pre.length + 0 from by rw [c2Pre_length]]
    rw [readBytes_append_right]
    rw [show c2L = c2ContentA.length from c2ContentA_length.symm]
    exact readBytes_all c2ContentA
  have hr1 : readHashedFile c2A0 1 = .ok c2Head16 := by
    apply readHashedFile_eval c2A0 1 ⟨0, 16, 1, none⟩ c2Head16 rfl
    show readBytes c2B0 0 16 = some c2Head16
    rw [show c2B0 = c2Pre ++ c2ContentA from rfl,
      readBytes_append_left c2Pre c2ContentA 0 16 (by rw [c2Pre_length]; omega)]
    decide
  unfold newFromFarc
  rw [show iterAllHash c2A0 = [0, 1] from rfl]
  rw [newFromFarcAux_cons c2A0 0 [1] [] c2ContentA hr0]
  rw [show (ainsert ([] : List (Nat × List Nat)) 0 c2ContentA).2 = [(0, c2ContentA)] from rfl]
  rw [newFromFarcAux_cons c2A0 1 [] [(0, c2ContentA)] c2Head16 hr1]
  rfl

def c2Table : List Nat := toLE4 0 ++ toLE4 0 ++ toLE4 c2L ++ toLE4 1 ++ toLE4 c2L ++ toLE4 16

def c2B : List Nat :=
  outerHeader (metaG 2 c2Table).length (storageStartOf 2 c2Table) (c2L + 16) ++
  metaG 2 c2Table ++ List.replicate (paddingOf 2 c2Table) 0 ++ (c2ContentA ++ c2Head16)

set_option maxRecDepth 100000 in
theorem c2_write : writeHashed c2M = .ok c2B := by
  have hlen16 : c2Head16.length = 16 := by decide
  have hstep1 : storageStep [] c2ContentA = c2ContentA := by
    unfold storageStep
    rw [List.nil_append, if_neg (by rw [c2ContentA_length]; decide)]
  have hstep2 : storageStep c2ContentA c2Head16 = c2ContentA ++ c2Head16 := by
    unfold storageStep
    rw [if_neg (by rw [List.length_append, c2ContentA_length, hlen16]; decide)]
  have hs : c2M.mergeSort (fun a b => Nat.ble a.1 b.1) = c2M := by
    apply mergeSort_pair
    · intro x y z hxy hyz
      simp only [Nat.ble_eq] at *
      omega
    · intro x y
      rcases Nat.le_total x.1 y.1 with h | h
      · simp [Nat.ble_eq, h]
      · simp [Nat.ble_eq, h]
    · decide
    · decide
  have hsl : storageLayout c2M = (c2ContentA ++ c2Head16, [(0, 0, c2L), (1, c2L, 16)]) := by
    show storageLayoutAux [] [(0, c2ContentA), (1, c2Head16)] = _
    simp only [storageLayoutAux, hstep1, hstep2]
    rw [c2ContentA_length, hlen16]
    simp
  have ht : entryBytes [(0, 0, c2L), (1, c2L, 16)] = .ok c2Table := by decide
  have heval := writeHashed_eval c2M c2M (c2ContentA ++ c2Head16) [(0, 0, c2L), (1, c2L, 16)]
    c2Table hs hsl ht (by decide) (by decide) (by decide) (by decide) (by decide)
    (by rw [List.length_append, c2ContentA_length, hlen16]; decide)
  rw [show (c2ContentA ++ c2Head16).length = c2L + 16 from by
    rw [List.length_append, c2ContentA_length, hlen16]] at heval
  rw [show c2M.length = 2 from rfl] at heval
  exact heval

def c2WPre : List Nat :=
  outerHeader (metaG 2 c2Table).length (storageStartOf 2 c2Table) (c2L + 16) ++
  metaG 2 c2Table ++ List.replicate (paddingOf 2 c2Table) 0

def c2Hdr2 : List Nat := toLE4 16 ++ toLE4 2 ++ toLE4 1 ++ [0, 0, 0, 0]

set_option maxRecDepth 100000 in
theorem c2_reparse :
    farcNewSpec c2B = .error (SpecParseError.OffsetOverflow 256 4294967040) := by
  have hsplit : c2B = c2WPre ++ (c2ContentA ++ c2Head16) := by
    unfold c2B c2WPre
    simp [List.append_assoc]
  have hwlen : c2WPre.length = 256 := by decide
  have hh0 : readBytes c2B 0 4 = some [70, 65, 82, 67] := by
    rw [hsplit, readBytes_append_left c2WPre _ 0 4 (by rw [hwlen]; omega)]
    decide
  have hh1 : readU32 c2B 0x20 = some 5 := by
    rw [hsplit, readU32_append_left c2WPre _ 0x20 (by rw [hwlen]; omega)]
    decide
  have hh2 : readU32 c2B 0x24 = some 128 := by
    rw [hsplit, readU32_append_left c2WPre _ 0x24 (by rw [hwlen]; omega)]
    decide
  have hh3 : readU32 c2B 0x28 = some 80 := by
    rw [hsplit, readU32_append_left c2WPre _ 0x28 (by rw [hwlen]; omega)]
    decide
  have hh4 : readU32 c2B 0x2C = some 256 := by
    rw [hsplit, readU32_append_left c2WPre _ 0x2C (by rw [hwlen]; omega)]
    decide
  have hh5 : 128 + 80 ≤ c2B.length := by
    rw [hsplit, List.length_append, hwlen]
    omega
  have hh6 : sir0Decode ((c2B.drop 128).take 80) = some ⟨c2Hdr2, metaG 2 c2Table⟩ := by
    rw [hsplit, List.drop_append_of_le_length (by rw [hwlen]; omega),
      List.take_append_of_le_length (by rw [List.length_drop, hwlen]; omega)]
    decide
  exact farcNewSpec_eval_err c2B 5 128 80 256 ⟨c2Hdr2, metaG 2 c2Table⟩
    (SpecParseError.OffsetOverflow 256 4294967040) hh0 hh1 (by decide) hh2 hh3 hh4 hh5 hh6
    (by decide) (by decide) (by decide)

set_option maxRecDepth 100000 in
/-- Claim C2 counterexample: a fully readable parsed archive (one hashed file
of 2^32 - 256 bytes plus one 16-byte file) that the writer serializes
successfully, yet re-parsing the written bytes fails with the 32-bit
offset-overflow error (data-region start 256 plus entry offset 2^32 - 256
reaches 2^32), so the claimed unconditional round trip does not hold. -/
theorem c2_roundtrip_counterexample :
    farcNewSpec c2B0 = .ok c2A0 ∧
    newFromFarc c2A0 = .ok c2M ∧
    writeHashed c2M = .ok c2B ∧
    farcNewSpec c2B = .error (SpecParseError.OffsetOverflow 256 4294967040) :=
  ⟨c2B0_parse, c2_build, c2_write, c2_reparse⟩

theorem readBytes_mono (x y : List Nat) (p n : Nat) (c : List Nat)
    (h : readBytes x p n = some c) : readBytes (x ++ y) p n = some c := by
  have hle : p + n ≤ x.length := by
    by_contra hc
    unfold readBytes at h
    rw [if_neg hc] at h
    exact Option.noConfusion h
  rw [readBytes_append_left x y p n hle]
  exact h

theorem storageStep_shape (acc c : List Nat) :
    ∃ pad, storageStep acc c = acc ++ c ++ List.replicate pad 0 := by
  unfold storageStep
  by_cases h : (acc ++ c).length % 16 ≠ 0
  · rw [if_pos h]
    exact ⟨(acc ++ c).length % 16, rfl⟩
  · rw [if_neg h]
    exact ⟨0, by simp⟩

theorem storageLayoutAux_spec : ∀ (ents : List (Nat × List Nat)) (acc : List Nat),
    (∃ suf, (storageLayoutAux acc ents).1 = acc ++ suf) ∧
    List.Forall₂ (fun (ent : Nat × List Nat) (e : Nat × Nat × Nat) =>
        e.1 = ent.1 ∧ e.2.2 = ent.2.length ∧
        readBytes (storageLayoutAux acc ents).1 e.2.1 ent.2.length = some ent.2)
      ents (storageLayoutAux acc ents).2 := by
  intro ents
  induction ents with
  | nil =>
    intro acc
    exact ⟨⟨[], by simp [storageLayoutAux]⟩, by simp [storageLayoutAux]⟩
  | cons hd t ih =>
    intro acc
    obtain ⟨h, c⟩ := hd
    obtain ⟨pad, hpad⟩ := storageStep_shape acc c
    have hres : storageLayoutAux acc ((h, c) :: t) =
        ((storageLayoutAux (storageStep acc c) t).1,
         (h, acc.length, c.length) :: (storageLayoutAux (storageStep acc c) t).2) := rfl
    obtain ⟨⟨suf, hsuf⟩, hfa⟩ := ih (storageStep acc c)
    constructor
    · refine ⟨(c ++ List.replicate pad 0) ++ suf, ?_⟩
      rw [hres]
      try dsimp only
      rw [hsuf, hpad]
      simp [List.append_assoc]
    · rw [hres]
      try dsimp only
      constructor
      · refine ⟨rfl, rfl, ?_⟩
        try dsimp only
        rw [hsuf, hpad]
        have hbase : readBytes (acc ++ c) acc.length c.length = some c := by
          unfold readBytes
          rw [if_pos (by simp)]
          congr 1
          rw [List.drop_append_of_le_length (by omega), List.drop_length, List.nil_append,
            List.take_length]
      

        exact readBytes_mono _ _ _ _ _ (readBytes_mono _ _ _ _ _ hbase)
      · refine List.Forall₂.imp ?_ hfa
        intro a b hab
        exact hab

theorem toLE4_length (n : Nat) : (toLE4 n).length = 4 := rfl

theorem readU32_shift4 (v : Nat) (r : List Nat) (k : Nat) :
    readU32 (toLE4 v ++ r) (4 + k) = readU32 r k := by
  have h4 : (4 : Nat) + k = (toLE4 v).length + k := by rw [toLE4_length]
  rw [h4, readU32_append_right]

theorem entryBytes_spec : ∀ (entries : List (Nat × Nat × Nat)) (table : List Nat),
    entryBytes entries = .ok table →
    table.length = 12 * entries.length ∧
    ∀ j (hj : j < entries.length),
      (entries.get ⟨j, hj⟩).2.1 < U32 ∧ (entries.get ⟨j, hj⟩).2.2 < U32 ∧
      ((entries.get ⟨j, hj⟩).1 < U32 →
        readU32 table (12 * j) = some (entries.get ⟨j, hj⟩).1) ∧
      readU32 table (12 * j + 4) = some (entries.get ⟨j, hj⟩).2.1 ∧
      readU32 table (12 * j + 8) = some (entries.get ⟨j, hj⟩).2.2 := by
  intro entries
  induction entries with
  | nil =>
    intro table h
    unfold entryBytes at h
    injection h with h
    subst h
    exact ⟨rfl, fun j hj => absurd hj (by simp)⟩
  | cons hd t ih =>
    intro table h
    obtain ⟨hh, s, l⟩ := hd
    unfold entryBytes at h
    by_cases hs : s < U32
    · rw [if_pos hs] at h
      by_cases hl : l < U32
      · rw [if_pos hl] at h
        rcases hrest : entryBytes t with e | rest
        · rw [hrest] at h
          exact Except.noConfusion h
        · rw [hrest] at h
          try dsimp only at h
          injection h with h
          subst h
          try dsimp only
          simp only [List.append_assoc]
          obtain ⟨hlen, hall⟩ := ih rest hrest
          constructor
          · simp only [List.length_append, toLE4_length, hlen, List.length_cons]
            ring
          · intro j hj
            cases j with
            | zero =>
              refine ⟨hs, hl, ?_, ?_, ?_⟩
              · intro hhlt
                rw [show 12 * 0 = 0 from rfl]
                exact readU32_toLE4 hh _ hhlt
              · rw [show 12 * 0 + 4 = 4 + 0 from rfl, readU32_shift4]
                exact readU32_toLE4 s _ hs
              · rw [show 12 * 0 + 8 = 4 + (4 + 0) from rfl, readU32_shift4, readU32_shift4]
                exact readU32_toLE4 l _ hl
            | succ j =>
              have hj' : j < t.length := by
                simp only [List.length_cons] at hj
                omega
              obtain ⟨h1, h2, h3, h4, h5⟩ := hall j hj'
              have hget : ((hh, s, l) :: t).get ⟨j + 1, hj⟩ = t.get ⟨j, hj'⟩ := rfl
              rw [hget]
              refine ⟨h1, h2, ?_, ?_, ?_⟩
              · intro hhlt
                rw [show 12 * (j + 1) = 4 + (4 + (4 + 12 * j)) from by ring,
                  readU32_shift4, readU32_shift4, readU32_shift4]
                exact h3 hhlt
              · rw [show 12 * (j + 1) + 4 = 4 + (4 + (4 + (12 * j + 4))) from by ring,
                  readU32_shift4, readU32_shift4, readU32_shift4]
                exact h4
              · rw [show 12 * (j + 1) + 8 = 4 + (4 + (4 + (12 * j + 8))) from by ring,
                  readU32_shift4, readU32_shift4, readU32_shift4]
                exact h5
      · rw [if_neg hl] at h
        exact Except.noConfusion h
    · rw [if_neg hs] at h
      exact Except.noConfusion h

theorem addFileWithHash_ok (i : FileNameIndex) (h o l : Nat)
    (hnone : alookup i.file_id_by_crc32 h = none) :
    addFileWithHash i h o l =
      some (⟨i.file_data ++ [FarcFile.new o l h none],
             (ainsert i.file_id_by_crc32 h i.file_data.length).2,
             i.file_id_by_string⟩, none) := by
  unfold addFileWithHash addFile FarcFile.new
  cases i with
  | mk fd mc ms =>
  dsimp only at hnone ⊢
  rw [show (ainsert mc h fd.length).1 = alookup mc h from ainsert_fst .., hnone]

theorem specLoop_run (payload : List Nat) (tOfs aOfs : Nat) :
    ∀ (es : List (Nat × Nat × Nat)) (i : Nat) (idx : FileNameIndex),
      (∀ j (hj : j < es.length),
         readU32 payload (tOfs + (i + j) * 12) = some (es.get ⟨j, hj⟩).1 ∧
         readU32 payload (tOfs + (i + j) * 12 + 4) = some (es.get ⟨j, hj⟩).2.1 ∧
         readU32 payload (tOfs + (i + j) * 12 + 8) = some (es.get ⟨j, hj⟩).2.2 ∧
         aOfs + (es.get ⟨j, hj⟩).2.1 < U32 ∧
         alookup idx.file_id_by_crc32 (es.get ⟨j, hj⟩).1 = none) →
      (es.map (fun e => e.1)).Nodup →
      ∃ idx', specEntriesLoop payload tOfs aOfs 1 i es.length idx = .ok idx' ∧
        idx'.file_data = idx.file_data ++
          es.map (fun e => FarcFile.new (aOfs + e.2.1) e.2.2 e.1 none) ∧
        (∀ h id, alookup idx.file_id_by_crc32 h = some id →
           alookup idx'.file_id_by_crc32 h = some id) ∧
        (∀ j (hj : j < es.length),
           alookup idx'.file_id_by_crc32 (es.get ⟨j, hj⟩).1 =
             some (idx.file_data.length + j)) := by
  intro es
  induction es with
  | nil =>
    intro i idx hreads hnd
    refine ⟨idx, rfl, by simp, fun h id hh => hh, fun j hj => absurd hj (by simp)⟩
  | cons e t ih =>
    intro i idx hreads hnd
    obtain ⟨eh, eo, el⟩ := e
    have h0 := hreads 0 (by simp)
    simp only [List.get] at h0
    obtain ⟨hr1, hr2, hr3, hov, hfresh⟩ := h0
    have hstep := addFileWithHash_ok idx eh (aOfs + eo) el hfresh
    have hloop : specEntriesLoop payload tOfs aOfs 1 i (t.length + 1) idx =
        specEntriesLoop payload tOfs aOfs 1 (i + 1) t.length
          ⟨idx.file_data ++ [FarcFile.new (aOfs + eo) el eh none],
           (ainsert idx.file_id_by_crc32 eh idx.file_data.length).2,
           idx.file_id_by_string⟩ := by
      conv_lhs => unfold specEntriesLoop
      try dsimp only
      rw [show i + 0 = i from by omega] at hr1 hr2 hr3
      rw [hr1, hr2, hr3]
      try dsimp only
      rw [if_pos hov]
      try dsimp only
      rw [hstep]
    simp only [List.map_cons, List.nodup_cons] at hnd
    set idx1 : FileNameIndex :=
      ⟨idx.file_data ++ [FarcFile.new (aOfs + eo) el eh none],
       (ainsert idx.file_id_by_crc32 eh idx.file_data.length).2,
       idx.file_id_by_string⟩ with hidx1
    have hreads' : ∀ j (hj : j < t.length),
        readU32 payload (tOfs + (i + 1 + j) * 12) = some (t.get ⟨j, hj⟩).1 ∧
        readU32 payload (tOfs + (i + 1 + j) * 12 + 4) = some (t.get ⟨j, hj⟩).2.1 ∧
        readU32 payload (tOfs + (i + 1 + j) * 12 + 8) = some (t.get ⟨j, hj⟩).2.2 ∧
        aOfs + (t.get ⟨j, hj⟩).2.1 < U32 ∧
        alookup idx1.file_id_by_crc32 (t.get ⟨j, hj⟩).1 = none := by
      intro j hj
      have hj2 : j + 1 < ((eh, eo, el) :: t).length := by simp; omega
      have hh := hreads (j + 1) hj2
      have hget : (((eh, eo, el) :: t).get ⟨j + 1, hj2⟩) = t.get ⟨j, hj⟩ := rfl
      rw [hget] at hh
      rw [show i + (j + 1) = i + 1 + j from by omega] at hh
      obtain ⟨a1, a2, a3, a4, a5⟩ := hh
      refine ⟨a1, a2, a3, a4, ?_⟩
      rw [hidx1]
      dsimp only
      have hne : (t.get ⟨j, hj⟩).1 ≠ eh := by
        intro hc
        apply hnd.1
        rw [← hc]
        exact List.mem_map.mpr ⟨t.get ⟨j, hj⟩, List.get_mem t j hj, rfl⟩
      rw [alookup_ainsert_ne idx.file_id_by_crc32 eh _ idx.file_data.length hne]
      exact a5
    obtain ⟨idx', hrun, hfd, hpres, hlook⟩ := ih (i + 1) idx1 hreads' hnd.2
    refine ⟨idx', ?_, ?_, ?_, ?_⟩
    · rw [show ((eh, eo, el) :: t).length = t.length + 1 from rfl, hloop]
      exact hrun
    · rw [hfd, hidx1]
      simp [List.append_assoc]
    · intro h id hh
      apply hpres
      rw [hidx1]
      dsimp only
      have hne : h ≠ eh := by
        intro hc
        rw [hc, hfresh] at hh
        exact Option.noConfusion hh
      rw [alookup_ainsert_ne idx.file_id_by_crc32 eh h idx.file_data.length hne]
      exact hh
    · intro j hj
      cases j with
      | zero =>
        have : alookup idx1.file_id_by_crc32 eh = some idx.file_data.length := by
          rw [hidx1]
          dsimp only
          exact alookup_ainsert_self ..
        have hres := hpres eh idx.file_data.length this
        simpa using hres
      | succ j =>
        have hj' : j < t.length := by
          simp only [List.length_cons] at hj
          omega
        have := hlook j hj'
        have hlen1 : idx1.file_data.length = idx.file_data.length + 1 := by
          rw [hidx1]
          simp
        rw [hlen1] at this
        have hget : (((eh, eo, el) :: t).get ⟨j + 1, hj⟩) = t.get ⟨j, hj'⟩ := rfl
        rw [hget]
        rw [show idx.file_data.length + (j + 1) = idx.file_data.length + 1 + j from by omega]
        exact this

theorem newFromFarcAux_spec (A : SpecFarc) : ∀ (hs : List Nat) (acc m : List (Nat × List Nat)),
    hs.Nodup → ((acc.map Prod.fst).Nodup) →
    (∀ h, h ∈ hs → alookup acc h = none) →
    newFromFarcAux A hs acc = .ok m →
    (m.map Prod.fst).Nodup ∧ m.length = acc.length + hs.length ∧
    (∀ k v, alookup acc k = some v → alookup m k = some v) ∧
    (∀ h, h ∈ hs → ∃ c, readHashedFile A h = .ok c ∧ alookup m h = some c) := by
  intro hs
  induction hs with
  | nil =>
    intro acc m _ haccnd _ hrun
    unfold newFromFarcAux at hrun
    injection hrun with hrun
    subst hrun
    exact ⟨haccnd, by simp, fun k v hv => hv, fun h hh => absurd hh (by simp)⟩
  | cons h t ih =>
    intro acc m hnd haccnd hfresh hrun
    unfold newFromFarcAux at hrun
    rcases hr : readHashedFile A h with e | c
    · rw [hr] at hrun
      exact Except.noConfusion hrun
    · rw [hr] at hrun
      try dsimp only at hrun
      simp only [List.nodup_cons] at hnd
      have hacc_h : alookup acc h = none := hfresh h (List.mem_cons_self _ _)
      have hfresh' : ∀ h', h' ∈ t → alookup (ainsert acc h c).2 h' = none := by
        intro h' hh'
        have hne : h' ≠ h := by
          intro hc
          exact hnd.1 (hc ▸ hh')
        rw [alookup_ainsert_ne acc h h' c hne]
        exact hfresh h' (List.mem_cons_of_mem _ hh')
      obtain ⟨mnd, mlen, mpres, mcont⟩ := ih (ainsert acc h c).2 m hnd.2
        (nodup_keys_ainsert acc h c haccnd) hfresh' hrun
      refine ⟨mnd, ?_, ?_, ?_⟩
      · rw [mlen, length_ainsert_absent acc h c hacc_h]
        simp only [List.length_cons]
        omega
      · intro k v hv
        apply mpres
        have hne : k ≠ h := by
          intro hc
          rw [hc, hacc_h] at hv
          exact Option.noConfusion hv
        rw [alookup_ainsert_ne acc h k c hne]
        exact hv
      · intro h' hh'
        rcases List.mem_cons.mp hh' with hcase | hcase
        · subst hcase
          refine ⟨c, hr, ?_⟩
          apply mpres
          exact alookup_ainsert_self acc h' c
        · exact mcont h' hcase

def HashesLT (i : FileNameIndex) : Prop := ∀ f ∈ i.file_data, f.name_hash < U32

theorem U32_eq_pow : U32 = 2 ^ 32 := by norm_num [U32]

theorem crcStep_lt (c : Nat) (h : c < U32) : crcStep c < U32 := by
  unfold crcStep
  rw [U32_eq_pow] at *
  by_cases hodd : c % 2 = 1
  · rw [if_pos hodd]
    exact Nat.xor_lt_two_pow (by omega) (by norm_num)
  · rw [if_neg hodd]
    omega

theorem crcStep_iterate_lt (n c : Nat) (h : c < U32) : crcStep^[n] c < U32 := by
  induction n generalizing c with
  | zero => simpa using h
  | succ k ih =>
    rw [Function.iterate_succ_apply]
    exact ih (crcStep c) (crcStep_lt c h)

theorem crc32_lt (bytes : List Nat) (hb : ∀ b ∈ bytes, b < 256) : crc32 bytes < U32 := by
  unfold crc32
  rw [U32_eq_pow]
  refine Nat.xor_lt_two_pow ?_ (by norm_num)
  rw [← U32_eq_pow]
  have : ∀ (l : List Nat) (c : Nat), (∀ b ∈ l, b < 256) → c < U32 → l.foldl crcByte c < U32 := by
    intro l
    induction l with
    | nil => intro c _ hc; simpa using hc
    | cons b t ihl =>
      intro c hbl hc
      rw [List.foldl_cons]
      apply ihl
      · intro x hx
        exact hbl x (List.mem_cons_of_mem _ hx)
      · unfold crcByte
        apply crcStep_iterate_lt
        rw [U32_eq_pow]
        apply Nat.xor_lt_two_pow
        · rw [← U32_eq_pow]; exact hc
        · have := hbl b (List.mem_cons_self _ _)
          omega
  exact this bytes 0xFFFFFFFF hb (by norm_num [U32])

theorem string_to_utf16_bytes_lt (s : String) : ∀ b ∈ string_to_utf16 s, b < 256 := by
  intro b hb
  unfold string_to_utf16 at hb
  rw [List.mem_flatten] at hb
  obtain ⟨l, hl, hbl⟩ := hb
  rw [List.mem_map] at hl
  obtain ⟨u, _, hu⟩ := hl
  rw [← hu] at hbl
  rcases List.mem_cons.mp hbl with h1 | h1
  · rw [h1]; exact Nat.mod_lt _ (by omega)
  · simp only [List.mem_singleton] at h1
    rw [h1]; exact Nat.mod_lt _ (by omega)

theorem hash_name_lt (s : String) : hash_name s < U32 :=
  crc32_lt _ (string_to_utf16_bytes_lt s)

theorem byteAt_lt (l : List Nat) (p : Nat) (hb : ∀ b ∈ l, b < 256) : byteAt l p < 256 := by
  unfold byteAt
  rw [List.getD_eq_getElem?_getD]
  rcases hg : l[p]? with _ | v
  · simp
  · simp only [Option.getD_some]
    obtain ⟨hp, he⟩ := List.getElem?_eq_some.mp hg
    exact hb v (he ▸ l.getElem_mem hp)

theorem readU32_lt (l : List Nat) (p v : Nat) (hb : ∀ b ∈ l, b < 256)
    (h : readU32 l p = some v) : v < U32 := by
  unfold readU32 at h
  by_cases hle : p + 4 ≤ l.length
  · rw [if_pos hle] at h
    injection h with h
    subst h
    unfold fromLE4 U32
    have b0 := byteAt_lt l p hb
    have b1 := byteAt_lt l (p + 1) hb
    have b2 := byteAt_lt l (p + 2) hb
    have b3 := byteAt_lt l (p + 3) hb
    omega
  · rw [if_neg hle] at h
    exact Option.noConfusion h

theorem specLoop_hashesLT (payload : List Nat) (tOfs aOfs kind : Nat)
    (hkind : kind = 0 ∨ kind = 1) (hb : ∀ b ∈ payload, b < 256) :
    ∀ rem i idx idx', HashesLT idx →
      specEntriesLoop payload tOfs aOfs kind i rem idx = .ok idx' →
      HashesLT idx' := by
  intro rem
  induction rem with
  | zero =>
    intro i idx idx' hlt h
    unfold specEntriesLoop at h
    injection h with h
    subst h
    exact hlt
  | succ n ih =>
    intro i idx idx' hlt h
    unfold specEntriesLoop at h
    try dsimp only at h
    rcases h1 : readU32 payload (tOfs + i * 12) with _ | keyOrHash
    · rw [h1] at h; exact Except.noConfusion h
    · rw [h1] at h
      rcases h2 : readU32 payload (tOfs + i * 12 + 4) with _ | dataOfs
      · rw [h2] at h; exact Except.noConfusion h
      · rw [h2] at h
        rcases h3 : readU32 payload (tOfs + i * 12 + 8) with _ | dataLen
        · rw [h3] at h; exact Except.noConfusion h
        · rw [h3] at h
          try dsimp only at h
          by_cases hov : aOfs + dataOfs < U32
          · rw [if_pos hov] at h
            rcases hkind with hk | hk
            · subst hk
              try dsimp only at h
              rcases h4 : readUtf16Units payload keyOrHash (payload.length + 1) with _ | units
              · rw [h4] at h; exact Except.noConfusion h
              · rw [h4] at h
                try dsimp only at h
                rcases h5 : utf16Decode units with _ | chars
                · rw [h5] at h; exact Except.noConfusion h
                · rw [h5] at h
                  try dsimp only at h
                  rcases h6 : addFileWithName idx (String.mk chars) (aOfs + dataOfs) dataLen with
                    _ | r
                  · rw [h6] at h; exact Except.noConfusion h
                  · rw [h6] at h
                    obtain ⟨idx1, e?⟩ := r
                    rcases he : e? with _ | e
                    · subst he
                      try dsimp only at h
                      obtain ⟨_, hfd, _⟩ := addFile_ok_shape idx _ idx1 h6
                      refine ih (i + 1) idx1 idx' ?_ h
                      intro f hf
                      rw [hfd] at hf
                      rcases List.mem_append.mp hf with hm | hm
                      · exact hlt f hm
                      · simp only [List.mem_singleton] at hm
                        subst hm
                        exact hash_name_lt (String.mk chars)
                    · subst he
                      try dsimp only at h
                      exact Except.noConfusion h
            · subst hk
              try dsimp only at h
              rcases h6 : addFileWithHash idx keyOrHash (aOfs + dataOfs) dataLen with _ | r
              · rw [h6] at h; exact Except.noConfusion h
              · rw [h6] at h
                obtain ⟨idx1, e?⟩ := r
                rcases he : e? with _ | e
                · subst he
                  try dsimp only at h
                  obtain ⟨_, hfd, _⟩ := addFile_ok_shape idx _ idx1 h6
                  refine ih (i + 1) idx1 idx' ?_ h
                  intro f hf
                  rw [hfd] at hf
                  rcases List.mem_append.mp hf with hm | hm
                  · exact hlt f hm
                  · simp only [List.mem_singleton] at hm
                    subst hm
                    exact readU32_lt payload _ keyOrHash hb h1
                · subst he
                  try dsimp only at h
                  exact Except.noConfusion h
          · rw [if_neg hov] at h
            exact Except.noConfusion h

theorem newFromFarcAux_keys (A : SpecFarc) : ∀ (hs : List Nat) (acc m : List (Nat × List Nat)),
    newFromFarcAux A hs acc = .ok m →
    ∀ k, k ∈ m.map Prod.fst → k ∈ acc.map Prod.fst ∨ k ∈ hs := by
  intro hs
  induction hs with
  | nil =>
    intro acc m hrun k hk
    unfold newFromFarcAux at hrun
    injection hrun with hrun
    subst hrun
    exact Or.inl hk
  | cons h t ih =>
    intro acc m hrun k hk
    unfold newFromFarcAux at hrun
    rcases hr : readHashedFile A h with e | c
    · rw [hr] at hrun
      exact Except.noConfusion hrun
    · rw [hr] at hrun
      try dsimp only at hrun
      rcases ih _ _ hrun k hk with hacc | ht
      · by_cases hpr : (alookup acc h).isSome
        · rw [keys_ainsert_present acc h c hpr] at hacc
          exact Or.inl hacc
        · have hnone : alookup acc h = none := by
            rcases halo : alookup acc h with _ | v
            · rfl
            · rw [halo] at hpr
              simp at hpr
          rw [keys_ainsert_absent acc h c hnone] at hacc
          rcases List.mem_append.mp hacc with h1 | h1
          · exact Or.inl h1
          · simp only [List.mem_singleton] at h1
            subst h1
            exact Or.inr (List.mem_cons_self _ _)
      · exact Or.inr (List.mem_cons_of_mem _ ht)

theorem readBytes_bound (l : List Nat) (p n : Nat) (c : List Nat)
    (h : readBytes l p n = some c) : p + n ≤ l.length := by
  unfold readBytes at h
  by_cases hle : p + n ≤ l.length
  · exact hle
  · rw [if_neg hle] at h
    exact Option.noConfusion h

theorem byteAt_shift4 (v : Nat) (r : List Nat) (k : Nat) :
    byteAt (toLE4 v ++ r) (4 + k) = byteAt r k := by
  have h4 : (4 : Nat) + k = (toLE4 v).length + k := by rw [toLE4_length]
  rw [h4, byteAt_append_right]

theorem fromLE4_byteAt_toLE4 (n : Nat) (r : List Nat) (h : n < U32) :
    fromLE4 (byteAt (toLE4 n ++ r) 0) (byteAt (toLE4 n ++ r) 1) (byteAt (toLE4 n ++ r) 2)
      (byteAt (toLE4 n ++ r) 3) = n := by
  have e : toLE4 n = [n % 256, n / 256 % 256, n / 65536 % 256, n / 16777216 % 256] := rfl
  rw [e]
  simp only [byteAt, List.getD_eq_getElem?_getD, List.cons_append, List.nil_append,
    List.getElem?_cons_zero, List.getElem?_cons_succ, Option.getD_some]
  exact fromLE4_toLE4 n h

theorem forall₂_get {α β : Type} {R : α → β → Prop} :
    ∀ {l1 : List α} {l2 : List β}, List.Forall₂ R l1 l2 →
      ∀ i (h1 : i < l1.length) (h2 : i < l2.length), R (l1.get ⟨i, h1⟩) (l2.get ⟨i, h2⟩) := by
  intro l1 l2 h
  induction h with
  | nil =>
    intro i h1 h2
    simp at h1
  | cons hab htail ih =>
    intro i h1 h2
    cases i with
    | zero => exact hab
    | succ j => exact ih j (by simpa using h1) (by simpa using h2)

theorem forall₂_map_eq {α β γ : Type} (f : α → γ) (g : β → γ) {R : α → β → Prop}
    (hR : ∀ a b, R a b → g b = f a) :
    ∀ {l1 : List α} {l2 : List β}, List.Forall₂ R l1 l2 → l2.map g = l1.map f := by
  intro l1 l2 h
  induction h with
  | nil => rfl
  | cons hab htail ih =>
    simp only [List.map_cons, ih, hR _ _ hab]

theorem farcNewSpec_ok_loop (B : List Nat) (A : SpecFarc) (h : farcNewSpec B = .ok A) :
    A.file = B ∧
    ∃ payload tOfs aOfs kind count,
      (kind = 0 ∨ kind = 1) ∧
      (∀ b ∈ payload, b ∈ B) ∧
      specEntriesLoop payload tOfs aOfs kind 0 count emptyIndex = .ok A.index := by
  unfold farcNewSpec at h
  rcases r0 : readBytes B 0 4 with _ | magic
  · rw [r0] at h; exact Except.noConfusion h
  · rw [r0] at h
    try dsimp only at h
    by_cases hmg : magic ≠ [70, 65, 82, 67]
    · rw [if_pos hmg] at h; exact Except.noConfusion h
    · rw [if_neg hmg] at h
      rcases r1 : readU32 B 0x20 with _ | sir0_type
      · rw [r1] at h; exact Except.noConfusion h
      · rw [r1] at h
        try dsimp only at h
        by_cases ht : sir0_type ≠ 4 ∧ sir0_type ≠ 5
        · rw [if_pos ht] at h; exact Except.noConfusion h
        · rw [if_neg ht] at h
          rcases r2 : readU32 B 0x24 with _ | sir0_offset
          · rw [r2] at h; exact Except.noConfusion h
          · rw [r2] at h
            try dsimp only at h
            rcases r3 : readU32 B 0x28 with _ | sir0_lenght
            · rw [r3] at h; exact Except.noConfusion h
            · rw [r3] at h
              try dsimp only at h
              rcases r4 : readU32 B 0x2C with _ | all_data_offset
              · rw [r4] at h; exact Except.noConfusion h
              · rw [r4] at h
                try dsimp only at h
                by_cases hpart : sir0_offset + sir0_lenght ≤ B.length
                · rw [if_pos hpart] at h
                  rcases r5 : sir0Decode ((B.drop sir0_offset).take sir0_lenght) with _ | s
                  · rw [r5] at h; exact Except.noConfusion h
                  · rw [r5] at h
                    try dsimp only at h
                    have hpay : s.payload = (B.drop sir0_offset).take sir0_lenght := by
                      unfold sir0Decode at r5
                      rcases q1 : readU32 ((B.drop sir0_offset).take sir0_lenght) 4 with _ | hp
                      · rw [q1] at r5; exact Option.noConfusion r5
                      · rw [q1] at r5
                        rcases q2 : readU32 ((B.drop sir0_offset).take sir0_lenght) 8 with _ | fp
                        · rw [q2] at r5; exact Option.noConfusion r5
                        · rw [q2] at r5
                          try dsimp only at r5
                          by_cases q3 : hp ≤ fp ∧
                              fp ≤ ((B.drop sir0_offset).take sir0_lenght).length
                          · rw [if_pos q3] at r5
                            injection r5 with r5
                            rw [← r5]
                          · rw [if_neg q3] at r5; exact Option.noConfusion r5
                    by_cases hh : s.header.length < 12
                    · rw [if_pos hh] at h; exact Except.noConfusion h
                    · rw [if_neg hh] at h
                      try dsimp only at h
                      by_cases hft : fromLE4 (byteAt s.header 8) (byteAt s.header 9)
                          (byteAt s.header 10) (byteAt s.header 11) = 0 ∨
                          fromLE4 (byteAt s.header 8) (byteAt s.header 9)
                          (byteAt s.header 10) (byteAt s.header 11) = 1
                      · rw [if_pos hft] at h
                        rcases hloop : specEntriesLoop s.payload
                            (fromLE4 (byteAt s.header 0) (byteAt s.header 1)
                              (byteAt s.header 2) (byteAt s.header 3))
                            all_data_offset
                            (fromLE4 (byteAt s.header 8) (byteAt s.header 9)
                              (byteAt s.header 10) (byteAt s.header 11)) 0
                            (fromLE4 (byteAt s.header 4) (byteAt s.header 5)
                              (byteAt s.header 6) (byteAt s.header 7)) emptyIndex with
                          e | idx'
                        · rw [hloop] at h; exact Except.noConfusion h
                        · rw [hloop] at h
                          try dsimp only at h
                          injection h with h
                          subst h
                          refine ⟨rfl, s.payload, _, all_data_offset, _, _, hft, ?_, hloop⟩
                          intro b hb
                          rw [hpay] at hb
                          exact List.mem_of_mem_drop (List.mem_of_mem_take hb)
                      · rw [if_neg hft] at h; exact Except.noConfusion h
                · rw [if_neg hpart] at h; exact Except.noConfusion h

theorem sir0HeaderBytes_length (a b : Nat) : (sir0HeaderBytes a b).length = 12 := rfl

theorem metaB_shape (table : List Nat) :
    ∃ pB, metaB table = (List.replicate 16 0 ++ table) ++ List.replicate pB 0 ∧
      (metaB table).length = 16 + table.length + pB := by
  obtain ⟨k, hk, _, _⟩ := padTo16_shape (metaA table)
  refine ⟨k, ?_, ?_⟩
  · rw [show metaB table = padTo16 (metaA table) from rfl, hk]
    rfl
  · rw [show metaB table = padTo16 (metaA table) from rfl, hk]
    simp only [metaA, List.length_append, List.length_replicate]

theorem metaD_shape (n : Nat) (table : List Nat) :
    ∃ pD, pD < 16 ∧
      metaD n table =
        metaB table ++ ((toLE4 0x10 ++ toLE4 n ++ toLE4 1) ++ List.replicate pD 0) ∧
      (metaD n table).length = (metaB table).length + (12 + pD) := by
  obtain ⟨k, hk, _, hklt⟩ := padTo16_shape (metaC n table)
  refine ⟨k, hklt, ?_, ?_⟩
  · rw [show metaD n table = padTo16 (metaC n table) from rfl, hk, metaC]
    simp [List.append_assoc]
  · rw [show metaD n table = padTo16 (metaC n table) from rfl, hk]
    simp only [metaC, List.length_append, List.length_replicate, toLE4_length]
    omega


theorem metaG_shape (n : Nat) (table : List Nat) :
    ∃ pD rest1 rest2,
      pD < 16 ∧
      metaE n table = metaB table ++
        ((toLE4 0x10 ++ toLE4 n ++ toLE4 1) ++ (List.replicate pD 0 ++ rest1)) ∧
      metaE n table = (List.replicate 16 0 ++ table) ++ rest2 ∧
      (metaD n table).length = (metaB table).length + (12 + pD) ∧
      (metaD n table).length ≤ (metaE n table).length ∧
      16 + table.length ≤ (metaB table).length := by
  obtain ⟨pB, hB1, hB2⟩ := metaB_shape table
  obtain ⟨pD, hpd, hD1, hD2⟩ := metaD_shape n table
  obtain ⟨k, hk, _, _⟩ :=
    padTo16_shape (metaD n table ++ sir0FooterBytes [4, 8, (metaA table).length])
  have hE : metaE n table = metaD n table ++
      (sir0FooterBytes [4, 8, (metaA table).length] ++ List.replicate k 0) := by
    rw [show metaE n table =
      padTo16 (metaD n table ++ sir0FooterBytes [4, 8, (metaA table).length]) from rfl, hk]
    simp [List.append_assoc]
  refine ⟨pD, sir0FooterBytes [4, 8, (metaA table).length] ++ List.replicate k 0,
    List.replicate pB 0 ++ ((toLE4 0x10 ++ toLE4 n ++ toLE4 1) ++
      (List.replicate pD 0 ++ (sir0FooterBytes [4, 8, (metaA table).length] ++
        List.replicate k 0))), hpd, ?_, ?_, hD2, ?_, ?_⟩
  · rw [hE, hD1]
    simp [List.append_assoc]
  · rw [hE, hD1, hB1]
    simp [List.append_assoc]
  · rw [hE, List.length_append]
    omega
  · omega

theorem drop_append_ge {α : Type} (x y : List α) (k : Nat) (h : x.length ≤ k) :
    (x ++ y).drop k = y.drop (k - x.length) := by
  conv_lhs => rw [show k = x.length + (k - x.length) from by omega]
  rw [List.drop_append]

theorem metaG_assoc (n : Nat) (table : List Nat) :
    metaG n table = [83, 73, 82, 48] ++ (toLE4 (metaB table).length ++
      (toLE4 (metaD n table).length ++ (metaE n table).drop 12)) := by
  rw [show metaG n table =
    sir0HeaderBytes (metaB table).length (metaD n table).length ++ (metaE n table).drop 12
    from rfl, sir0HeaderBytes]
  simp [List.append_assoc]

theorem metaG_length_eq (n : Nat) (table : List Nat) :
    (metaG n table).length = 12 + ((metaE n table).length - 12) := by
  rw [show metaG n table =
    sir0HeaderBytes (metaB table).length (metaD n table).length ++ (metaE n table).drop 12
    from rfl, List.length_append, sir0HeaderBytes_length, List.length_drop]

theorem metaG_decode (n : Nat) (table : List Nat)
    (hB : (metaB table).length < U32) (hD : (metaD n table).length < U32) :
    ∃ pD, pD < 16 ∧
      sir0Decode (metaG n table) =
        some ⟨(toLE4 0x10 ++ toLE4 n ++ toLE4 1) ++ List.replicate pD 0, metaG n table⟩ := by
  obtain ⟨pD, rest1, rest2, hpd, hE1, hE2, hD2, hDE, hBge⟩ := metaG_shape n table
  refine ⟨pD, hpd, ?_⟩
  have hElen : (metaE n table).length =
      (metaB table).length + (12 + (pD + rest1.length)) := by
    rw [hE1]
    simp only [List.length_append, List.length_replicate, toLE4_length]
  have hread4 : readU32 (metaG n table) 4 = some (metaB table).length := by
    have ha := readU32_append_right [83, 73, 82, 48]
      (toLE4 (metaB table).length ++ (toLE4 (metaD n table).length ++ (metaE n table).drop 12)) 0
    have hl : ([83, 73, 82, 48] : List Nat).length + 0 = 4 := rfl
    rw [hl] at ha
    rw [metaG_assoc, ha, readU32_toLE4 _ _ hB]
  have hread8 : readU32 (metaG n table) 8 = some (metaD n table).length := by
    have ha := readU32_append_right [83, 73, 82, 48]
      (toLE4 (metaB table).length ++ (toLE4 (metaD n table).length ++ (metaE n table).drop 12)) 4
    have hl : ([83, 73, 82, 48] : List Nat).length + 4 = 8 := rfl
    rw [hl] at ha
    have hc := readU32_shift4 (metaB table).length
      (toLE4 (metaD n table).length ++ (metaE n table).drop 12) 0
    norm_num at hc
    rw [metaG_assoc, ha, hc, readU32_toLE4 _ _ hD]
  have hdrop : (metaG n table).drop (metaB table).length =
      (metaE n table).drop (metaB table).length := by
    rw [show metaG n table =
      sir0HeaderBytes (metaB table).length (metaD n table).length ++ (metaE n table).drop 12
      from rfl]
    rw [drop_append_ge _ _ _ (by rw [sir0HeaderBytes_length]; omega)]
    rw [List.drop_drop, sir0HeaderBytes_length]
    have he : 12 + ((metaB table).length - 12) = (metaB table).length := by omega
    rw [he]
  have hheader : ((metaG n table).drop (metaB table).length).take
      ((metaD n table).length - (metaB table).length) =
      (toLE4 0x10 ++ toLE4 n ++ toLE4 1) ++ List.replicate pD 0 := by
    rw [hdrop, hE1, List.drop_append_of_le_length (Nat.le_refl _), List.drop_length,
      List.nil_append]
    rw [show (toLE4 0x10 ++ toLE4 n ++ toLE4 1) ++ (List.replicate pD 0 ++ rest1) =
      ((toLE4 0x10 ++ toLE4 n ++ toLE4 1) ++ List.replicate pD 0) ++ rest1 from by
        simp [List.append_assoc]]
    rw [show (metaD n table).length - (metaB table).length =
      ((toLE4 0x10 ++ toLE4 n ++ toLE4 1) ++ List.replicate pD 0).length from by
        simp only [List.length_append, List.length_replicate, toLE4_length]
        omega]
    rw [List.take_append_of_le_length (Nat.le_refl _), List.take_length]
  have hlen : (metaG n table).length = (metaE n table).length := by
    rw [metaG_length_eq]
    omega
  unfold sir0Decode
  rw [hread4, hread8]
  try dsimp only
  rw [if_pos (by constructor <;> omega)]
  rw [hheader]

theorem metaG_read_table (n : Nat) (table : List Nat) (k : Nat)
    (hk : k + 4 ≤ table.length) :
    readU32 (metaG n table) (16 + k) = readU32 table k := by
  obtain ⟨pD, rest1, rest2, hpd, hE1, hE2, hD2, hDE, hBge⟩ := metaG_shape n table
  have hE12 : (metaE n table).drop 12 = List.replicate 4 0 ++ (table ++ rest2) := by
    rw [hE2, List.append_assoc, List.drop_append_of_le_length (by simp)]
    congr 1
  have hG : metaG n table =
      (sir0HeaderBytes (metaB table).length (metaD n table).length ++ List.replicate 4 0) ++
        (table ++ rest2) := by
    rw [show metaG n table =
      sir0HeaderBytes (metaB table).length (metaD n table).length ++ (metaE n table).drop 12
      from rfl, hE12]
    simp [List.append_assoc]
  have ha := readU32_append_right
    (sir0HeaderBytes (metaB table).length (metaD n table).length ++ List.replicate 4 0)
    (table ++ rest2) k
  have hXlen : (sir0HeaderBytes (metaB table).length (metaD n table).length ++
      List.replicate 4 0).length + k = 16 + k := by
    rw [List.length_append, sir0HeaderBytes_length, List.length_replicate]
  rw [hXlen] at ha
  rw [hG, ha, readU32_append_left table rest2 k hk]

theorem outerHeader_split (a b c : Nat) :
    outerHeader a b c =
      [70, 65, 82, 67, 0, 0, 0, 0, 0, 0, 0, 0, 2, 0, 0, 0, 0, 0, 0, 0, 0, 0, 0, 0,
       7, 0, 0, 0, 164, 60, 234, 119, 5, 0, 0, 0, 128, 0, 0, 0] ++
      (toLE4 a ++ (toLE4 b ++ (toLE4 (u32wrap (c + 112)) ++ List.replicate 76 0))) := rfl

theorem outerHeader_length (a b c : Nat) : (outerHeader a b c).length = 128 := rfl

theorem outerHeader_reads (a b c : Nat) (ha : a < U32) (hb : b < U32) :
    readBytes (outerHeader a b c) 0 4 = some [70, 65, 82, 67] ∧
    readU32 (outerHeader a b c) 0x20 = some 5 ∧
    readU32 (outerHeader a b c) 0x24 = some 128 ∧
    readU32 (outerHeader a b c) 0x28 = some a ∧
    readU32 (outerHeader a b c) 0x2C = some b := by
  rw [outerHeader_split]
  refine ⟨?_, ?_, ?_, ?_, ?_⟩
  · rw [readBytes_append_left _ _ 0 4 (by decide)]
    decide
  · rw [readU32_append_left _ _ 0x20 (by decide)]
    decide
  · rw [readU32_append_left _ _ 0x24 (by decide)]
    decide
  · have h := readU32_append_right
      [70, 65, 82, 67, 0, 0, 0, 0, 0, 0, 0, 0, 2, 0, 0, 0, 0, 0, 0, 0, 0, 0, 0, 0,
       7, 0, 0, 0, 164, 60, 234, 119, 5, 0, 0, 0, 128, 0, 0, 0]
      (toLE4 a ++ (toLE4 b ++ (toLE4 (u32wrap (c + 112)) ++ List.replicate 76 0))) 0
    have hl : ([70, 65, 82, 67, 0, 0, 0, 0, 0, 0, 0, 0, 2, 0, 0, 0, 0, 0, 0, 0, 0, 0, 0, 0,
       7, 0, 0, 0, 164, 60, 234, 119, 5, 0, 0, 0, 128, 0, 0, 0] : List Nat).length + 0 = 0x28 :=
      rfl
    rw [hl] at h
    rw [h, readU32_toLE4 a _ ha]
  · have h := readU32_append_right
      [70, 65, 82, 67, 0, 0, 0, 0, 0, 0, 0, 0, 2, 0, 0, 0, 0, 0, 0, 0, 0, 0, 0, 0,
       7, 0, 0, 0, 164, 60, 234, 119, 5, 0, 0, 0, 128, 0, 0, 0]
      (toLE4 a ++ (toLE4 b ++ (toLE4 (u32wrap (c + 112)) ++ List.replicate 76 0))) 4
    have hl : ([70, 65, 82, 67, 0, 0, 0, 0, 0, 0, 0, 0, 2, 0, 0, 0, 0, 0, 0, 0, 0, 0, 0, 0,
       7, 0, 0, 0, 164, 60, 234, 119, 5, 0, 0, 0, 128, 0, 0, 0] : List Nat).length + 4 = 0x2C :=
      rfl
    rw [hl] at h
    have h2 := readU32_shift4 a (toLE4 b ++ (toLE4 (u32wrap (c + 112)) ++ List.replicate 76 0)) 0
    norm_num at h2
    rw [h, h2, readU32_toLE4 b _ hb]

theorem storageStartOf_eq (n : Nat) (table : List Nat)
    (hfit : 0x80 + (metaG n table).length + 256 ≤ U32) :
    paddingOf n table < 256 ∧
    storageStartOf n table = 128 + (metaG n table).length + paddingOf n table := by
  have hlt : 0x80 + (metaG n table).length < U32 := by omega
  have hwrap1 : u32wrap (0x80 + (metaG n table).length) = 0x80 + (metaG n table).length :=
    Nat.mod_eq_of_lt hlt
  have hpad : paddingOf n table < 256 := by
    unfold paddingOf
    try dsimp only
    rw [hwrap1]
    by_cases hmod : (0x80 + (metaG n table).length) % 256 ≠ 0
    · rw [if_pos hmod]
      omega
    · rw [if_neg hmod]
      omega
  refine ⟨hpad, ?_⟩
  unfold storageStartOf
  try dsimp only
  rw [hwrap1]
  unfold u32wrap
  have hlt2 : 0x80 + (metaG n table).length + paddingOf n table < U32 := by omega
  rw [Nat.mod_eq_of_lt hlt2]

theorem writeHashed_ok_shape (files : List (Nat × List Nat)) (B : List Nat)
    (h : writeHashed files = .ok B) :
    ∃ storage entries table,
      storageLayout (files.mergeSort (fun a b => Nat.ble a.1 b.1)) = (storage, entries) ∧
      entryBytes entries = .ok table ∧
      (metaA table).length < U32 ∧
      (metaB table).length < U32 ∧
      files.length < U32 ∧
      (metaD files.length table).length < U32 ∧
      (metaG files.length table).length < U32 ∧
      storage.length < U32 ∧
      B = outerHeader (metaG files.length table).length (storageStartOf files.length table)
            storage.length ++
          metaG files.length table ++
          List.replicate (paddingOf files.length table) 0 ++ storage := by
  unfold writeHashed at h
  try dsimp only at h
  rcases htab : entryBytes (storageLayout (files.mergeSort fun a b => Nat.ble a.1 b.1)).2 with
    e | table
  · rw [htab] at h
    exact Except.noConfusion h
  · rw [htab] at h
    try dsimp only at h
    by_cases c1 : (metaA table).length < U32
    · rw [if_pos c1] at h
      by_cases c2 : (metaB table).length < U32
      · rw [if_pos c2] at h
        by_cases c3 : files.length < U32
        · rw [if_pos c3] at h
          by_cases c4 : (metaD files.length table).length < U32
          · rw [if_pos c4] at h
            by_cases c5 : (metaG files.length table).length < U32
            · rw [if_pos c5] at h
              by_cases c6 : (storageLayout (files.mergeSort
                  fun a b => Nat.ble a.1 b.1)).1.length < U32
              · rw [if_pos c6] at h
                injection h with h
                exact ⟨(storageLayout (files.mergeSort fun a b => Nat.ble a.1 b.1)).1,
                  (storageLayout (files.mergeSort fun a b => Nat.ble a.1 b.1)).2, table,
                  rfl, htab, c1, c2, c3, c4, c5, c6, h.symm⟩
              · rw [if_neg c6] at h
                exact Except.noConfusion h
            · rw [if_neg c5] at h
              exact Except.noConfusion h
          · rw [if_neg c4] at h
            exact Except.noConfusion h
        · rw [if_neg c3] at h
          exact Except.noConfusion h
      · rw [if_neg c2] at h
        exact Except.noConfusion h
    · rw [if_neg c1] at h
      exact Except.noConfusion h

theorem byteAt_shift4A (v : Nat) (r : List Nat) (k : Nat) (h : 4 ≤ k) :
    byteAt (toLE4 v ++ r) k = byteAt r (k - 4) := by
  conv_lhs => rw [show k = 4 + (k - 4) from by omega]
  rw [byteAt_shift4]

theorem readHashedFile_ok_isSome (A : SpecFarc) (h : Nat) (c : List Nat)
    (hr : readHashedFile A h = .ok c) : (alookup A.index.file_id_by_crc32 h).isSome := by
  unfold readHashedFile getFileByHash at hr
  rcases hl : alookup A.index.file_id_by_crc32 h with _ | id
  · rw [hl] at hr
    try dsimp only at hr
    exact Except.noConfusion hr
  · simp

set_option maxHeartbeats 1000000 in
/-- Claim C2 (amended): for any archive `B0` of byte values that parses to
`A0`, if building the writer map from `A0` succeeds (`new_from_farc`, which
reads every hash), writing it yields `B`, and the written archive fits in
32 bits (`roundTripFits`: data-region start plus storage size below `2^32`,
i.e. the archive stays below about 4 GiB), then re-parsing `B` succeeds,
the total entry count equals the original's, and every hash readable in the
original reads back byte-identical content. -/
theorem c2_roundtrip_amended (B0 : List Nat) (A0 : SpecFarc) (m : List (Nat × List Nat))
    (B : List Nat)
    (hbytes : ∀ b ∈ B0, b < 256)
    (hparse : farcNewSpec B0 = .ok A0)
    (hbuild : newFromFarc A0 = .ok m)
    (hwrite : writeHashed m = .ok B)
    (hfits : roundTripFits m = true) :
    ∃ A, farcNewSpec B = .ok A ∧
      A.index.len = A0.index.len ∧
      ∀ h c, readHashedFile A0 h = .ok c → readHashedFile A h = .ok c := by
  obtain ⟨hfile0, payload, tOfs0, aOfs0, kind0, count0, hkind0, hmem0, hloop0⟩ :=
    farcNewSpec_ok_loop B0 A0 hparse
  have hstart0 : WFIndex emptyIndex ∧ HashesInv emptyIndex ∧
      ((emptyIndex.file_data.map (fun f => f.name_hash)).Nodup) := by
    refine ⟨⟨?_, ?_⟩, ?_, ?_⟩
    · intro p hp
      simp [emptyIndex] at hp
    · intro p hp
      simp [emptyIndex] at hp
    · intro hsh
      simp [emptyIndex, alookup]
    · simp [emptyIndex]
  obtain ⟨hWF0, hInv0, hNd0⟩ := specLoop_preserves payload tOfs0 aOfs0 kind0 hkind0 count0 0
    emptyIndex A0.index hstart0.1 hstart0.2.1 hstart0.2.2 hloop0
  have hLT0 : HashesLT A0.index := by
    refine specLoop_hashesLT payload tOfs0 aOfs0 kind0 hkind0 ?_ count0 0 emptyIndex A0.index
      ?_ hloop0
    · intro b hb
      exact hbytes b (hmem0 b hb)
    · intro f hf
      simp [emptyIndex] at hf
  unfold newFromFarc at hbuild
  have hnd0 : (iterAllHash A0).Nodup := hNd0
  obtain ⟨hmnd, hmlen, hmpres, hmcont⟩ := newFromFarcAux_spec A0 (iterAllHash A0) [] m hnd0
    (by simp) (fun h _ => rfl) hbuild
  have hmlen' : m.length = A0.index.file_data.length := by
    simpa [iterAllHash] using hmlen
  have hkeys : ∀ k, k ∈ m.map Prod.fst → k < U32 := by
    intro k hk
    rcases newFromFarcAux_keys A0 (iterAllHash A0) [] m hbuild k hk with h0 | h0
    · simp at h0
    · unfold iterAllHash at h0
      obtain ⟨f, hf, hfe⟩ := List.mem_map.mp h0
      rw [← hfe]
      exact hLT0 f hf
  obtain ⟨storage, entries, table, hsl, htab, c1, c2, c3, c4, c5, c6, hBe⟩ :=
    writeHashed_ok_shape m B hwrite
  unfold roundTripFits at hfits
  rw [hsl] at hfits
  try dsimp only at hfits
  rw [htab] at hfits
  try dsimp only at hfits
  simp only [Bool.and_eq_true, decide_eq_true_eq] at hfits
  obtain ⟨hfitA, hfitB⟩ := hfits
  obtain ⟨hpadlt, hstart⟩ := storageStartOf_eq m.length table hfitA
  have hperm : (m.mergeSort (fun a b => Nat.ble a.1 b.1)).Perm m :=
    List.mergeSort_perm m _
  have hslen : (m.mergeSort (fun a b => Nat.ble a.1 b.1)).length = m.length := hperm.length_eq
  have hsl' : storageLayoutAux [] (m.mergeSort (fun a b => Nat.ble a.1 b.1)) =
      (storage, entries) := hsl
  obtain ⟨hpre0, hfa0⟩ := storageLayoutAux_spec (m.mergeSort (fun a b => Nat.ble a.1 b.1)) []
  rw [hsl'] at hfa0
  try dsimp only at hfa0
  have hentlen : entries.length = m.length := by
    have h1 := List.Forall₂.length_eq hfa0
    omega
  obtain ⟨htlen, htget⟩ := entryBytes_spec entries table htab
  have hreads : ∀ j (hj : j < entries.length),
      readU32 (metaG m.length table) (16 + (0 + j) * 12) = some (entries.get ⟨j, hj⟩).1 ∧
      readU32 (metaG m.length table) (16 + (0 + j) * 12 + 4) =
        some (entries.get ⟨j, hj⟩).2.1 ∧
      readU32 (metaG m.length table) (16 + (0 + j) * 12 + 8) =
        some (entries.get ⟨j, hj⟩).2.2 ∧
      storageStartOf m.length table + (entries.get ⟨j, hj⟩).2.1 < U32 ∧
      alookup emptyIndex.file_id_by_crc32 (entries.get ⟨j, hj⟩).1 = none := by
    intro j hj
    have hj' : j < (m.mergeSort (fun a b => Nat.ble a.1 b.1)).length := by omega
    obtain ⟨hsU, hlU, hrd1, hrd2, hrd3⟩ := htget j hj
    have hRj := forall₂_get hfa0 j hj' hj
    obtain ⟨e1, e2, e3⟩ := hRj
    have hhlt : (entries.get ⟨j, hj⟩).1 < U32 := by
      rw [e1]
      refine hkeys _ ?_
      exact List.mem_map_of_mem Prod.fst
        (hperm.mem_iff.mp (List.get_mem (m.mergeSort (fun a b => Nat.ble a.1 b.1)) j hj'))
    have hblt := readBytes_bound storage (entries.get ⟨j, hj⟩).2.1 _ _ e3
    refine ⟨?_, ?_, ?_, by omega, rfl⟩
    · have hp : 16 + (0 + j) * 12 = 16 + 12 * j := by ring
      rw [hp, metaG_read_table m.length table (12 * j) (by omega)]
      exact hrd1 hhlt
    · have hp : 16 + (0 + j) * 12 + 4 = 16 + (12 * j + 4) := by ring
      rw [hp, metaG_read_table m.length table (12 * j + 4) (by omega)]
      exact hrd2
    · have hp : 16 + (0 + j) * 12 + 8 = 16 + (12 * j + 8) := by ring
      rw [hp, metaG_read_table m.length table (12 * j + 8) (by omega)]
      exact hrd3
  have hndE : (entries.map (fun e => e.1)).Nodup := by
    have hmapeq : entries.map Prod.fst =
        (m.mergeSort (fun a b => Nat.ble a.1 b.1)).map Prod.fst :=
      forall₂_map_eq Prod.fst Prod.fst (fun a b hab => hab.1) hfa0
    have : ((m.mergeSort (fun a b => Nat.ble a.1 b.1)).map Prod.fst).Nodup :=
      ((hperm.map Prod.fst).nodup_iff).mpr hmnd
    rw [← hmapeq] at this
    exact this
  obtain ⟨idx', hrun, hfd', hpres', hlook'⟩ :=
    specLoop_run (metaG m.length table) 16 (storageStartOf m.length table) entries 0
      emptyIndex hreads hndE
  have hfd2 : idx'.file_data = entries.map (fun e =>
      FarcFile.new (storageStartOf m.length table + e.2.1) e.2.2 e.1 none) := by
    rw [hfd']
    rfl
  obtain ⟨pD, hpdlt, hdec⟩ := metaG_decode m.length table c2 c4
  have hHassoc : (toLE4 0x10 ++ toLE4 m.length ++ toLE4 1) ++ List.replicate pD 0 =
      toLE4 0x10 ++ (toLE4 m.length ++ (toLE4 1 ++ List.replicate pD 0)) := by
    simp [List.append_assoc]
  have hT : fromLE4
      (byteAt ((toLE4 0x10 ++ toLE4 m.length ++ toLE4 1) ++ List.replicate pD 0) 0)
      (byteAt ((toLE4 0x10 ++ toLE4 m.length ++ toLE4 1) ++ List.replicate pD 0) 1)
      (byteAt ((toLE4 0x10 ++ toLE4 m.length ++ toLE4 1) ++ List.replicate pD 0) 2)
      (byteAt ((toLE4 0x10 ++ toLE4 m.length ++ toLE4 1) ++ List.replicate pD 0) 3) = 16 := by
    rw [hHassoc]
    exact fromLE4_byteAt_toLE4 0x10 _ (by norm_num [U32])
  have hC : fromLE4
      (byteAt ((toLE4 0x10 ++ toLE4 m.length ++ toLE4 1) ++ List.replicate pD 0) 4)
      (byteAt ((toLE4 0x10 ++ toLE4 m.length ++ toLE4 1) ++ List.replicate pD 0) 5)
      (byteAt ((toLE4 0x10 ++ toLE4 m.length ++ toLE4 1) ++ List.replicate pD 0) 6)
      (byteAt ((toLE4 0x10 ++ toLE4 m.length ++ toLE4 1) ++ List.replicate pD 0) 7) =
      m.length := by
    rw [hHassoc]
    rw [byteAt_shift4A 0x10 _ 4 (by omega), byteAt_shift4A 0x10 _ 5 (by omega),
        byteAt_shift4A 0x10 _ 6 (by omega), byteAt_shift4A 0x10 _ 7 (by omega)]
    norm_num
    exact fromLE4_byteAt_toLE4 m.length _ c3
  have hK : fromLE4
      (byteAt ((toLE4 0x10 ++ toLE4 m.length ++ toLE4 1) ++ List.replicate pD 0) 8)
      (byteAt ((toLE4 0x10 ++ toLE4 m.length ++ toLE4 1) ++ List.replicate pD 0) 9)
      (byteAt ((toLE4 0x10 ++ toLE4 m.length ++ toLE4 1) ++ List.replicate pD 0) 10)
      (byteAt ((toLE4 0x10 ++ toLE4 m.length ++ toLE4 1) ++ List.replicate pD 0) 11) = 1 := by
    rw [hHassoc]
    rw [byteAt_shift4A 0x10 _ 8 (by omega), byteAt_shift4A 0x10 _ 9 (by omega),
        byteAt_shift4A 0x10 _ 10 (by omega), byteAt_shift4A 0x10 _ 11 (by omega)]
    norm_num
    rw [byteAt_shift4A m.length _ 4 (by omega), byteAt_shift4A m.length _ 5 (by omega),
        byteAt_shift4A m.length _ 6 (by omega), byteAt_shift4A m.length _ 7 (by omega)]
    norm_num
    exact fromLE4_byteAt_toLE4 1 _ (by norm_num [U32])
  have hssU : storageStartOf m.length table < U32 := by
    unfold storageStartOf u32wrap
    exact Nat.mod_lt _ (by norm_num [U32])
  have hBe' : B = outerHeader (metaG m.length table).length (storageStartOf m.length table)
      storage.length ++ (metaG m.length table ++
      (List.replicate (paddingOf m.length table) 0 ++ storage)) := by
    rw [hBe]
    simp [List.append_assoc]
  obtain ⟨ho0, ho1, ho2, ho3, ho4⟩ := outerHeader_reads (metaG m.length table).length
    (storageStartOf m.length table) storage.length c5 hssU
  have h0 : readBytes B 0 4 = some [70, 65, 82, 67] := by
    rw [hBe', readBytes_append_left _ _ 0 4 (by rw [outerHeader_length]; omega)]
    exact ho0
  have h1 : readU32 B 0x20 = some 5 := by
    rw [hBe', readU32_append_left _ _ 0x20 (by rw [outerHeader_length]; omega)]
    exact ho1
  have h2 : readU32 B 0x24 = some 128 := by
    rw [hBe', readU32_append_left _ _ 0x24 (by rw [outerHeader_length]; omega)]
    exact ho2
  have h3 : readU32 B 0x28 = some (metaG m.length table).length := by
    rw [hBe', readU32_append_left _ _ 0x28 (by rw [outerHeader_length]; omega)]
    exact ho3
  have h4 : readU32 B 0x2C = some (storageStartOf m.length table) := by
    rw [hBe', readU32_append_left _ _ 0x2C (by rw [outerHeader_length]; omega)]
    exact ho4
  have h5 : 128 + (metaG m.length table).length ≤ B.length := by
    rw [hBe']
    simp only [List.length_append, outerHeader_length]
    omega
  have hdrop128 : B.drop 128 = metaG m.length table ++
      (List.replicate (paddingOf m.length table) 0 ++ storage) := by
    rw [hBe', drop_append_ge _ _ 128 (outerHeader_length _ _ _).le, outerHeader_length]
    norm_num
  have htake : (B.drop 128).take (metaG m.length table).length = metaG m.length table := by
    rw [hdrop128, List.take_append_of_le_length (Nat.le_refl _), List.take_length]
  have h6 : sir0Decode ((B.drop 128).take (metaG m.length table).length) =
      some ⟨(toLE4 0x10 ++ toLE4 m.length ++ toLE4 1) ++ List.replicate pD 0,
        metaG m.length table⟩ := by
    rw [htake]
    exact hdec
  have h7 : ¬((toLE4 0x10 ++ toLE4 m.length ++ toLE4 1) ++
      List.replicate pD 0).length < 12 := by
    simp only [List.length_append, toLE4_length, List.length_replicate]
    omega
  have h9 : specEntriesLoop (metaG m.length table)
      (fromLE4
        (byteAt ((toLE4 0x10 ++ toLE4 m.length ++ toLE4 1) ++ List.replicate pD 0) 0)
        (byteAt ((toLE4 0x10 ++ toLE4 m.length ++ toLE4 1) ++ List.replicate pD 0) 1)
        (byteAt ((toLE4 0x10 ++ toLE4 m.length ++ toLE4 1) ++ List.replicate pD 0) 2)
        (byteAt ((toLE4 0x10 ++ toLE4 m.length ++ toLE4 1) ++ List.replicate pD 0) 3))
      (storageStartOf m.length table)
      (fromLE4
        (byteAt ((toLE4 0x10 ++ toLE4 m.length ++ toLE4 1) ++ List.replicate pD 0) 8)
        (byteAt ((toLE4 0x10 ++ toLE4 m.length ++ toLE4 1) ++ List.replicate pD 0) 9)
        (byteAt ((toLE4 0x10 ++ toLE4 m.length ++ toLE4 1) ++ List.replicate pD 0) 10)
        (byteAt ((toLE4 0x10 ++ toLE4 m.length ++ toLE4 1) ++ List.replicate pD 0) 11)) 0
      (fromLE4
        (byteAt ((toLE4 0x10 ++ toLE4 m.length ++ toLE4 1) ++ List.replicate pD 0) 4)
        (byteAt ((toLE4 0x10 ++ toLE4 m.length ++ toLE4 1) ++ List.replicate pD 0) 5)
        (byteAt ((toLE4 0x10 ++ toLE4 m.length ++ toLE4 1) ++ List.replicate pD 0) 6)
        (byteAt ((toLE4 0x10 ++ toLE4 m.length ++ toLE4 1) ++ List.replicate pD 0) 7))
      emptyIndex = .ok idx' := by
    rw [hT, hK, hC]
    rw [hentlen] at hrun
    exact hrun
  refine ⟨⟨B, idx'⟩, ?_, ?_, ?_⟩
  · exact farcNewSpec_eval_ok B 5 128 (metaG m.length table).length
      (storageStartOf m.length table)
      ⟨(toLE4 0x10 ++ toLE4 m.length ++ toLE4 1) ++ List.replicate pD 0,
        metaG m.length table⟩ idx' h0 h1 (by decide) h2 h3 h4 h5 h6 h7 (Or.inr hK) h9
  · show idx'.len = A0.index.len
    unfold FileNameIndex.len
    rw [hfd2]
    simp only [List.length_map]
    omega
  · intro hh c hread
    have hsome := readHashedFile_ok_isSome A0 hh c hread
    have hmemh : hh ∈ iterAllHash A0 := (hInv0 hh).mp hsome
    obtain ⟨c', hread', hmval⟩ := hmcont hh hmemh
    rw [hread] at hread'
    have hcc : c = c' := Except.ok.inj hread'
    subst hcc
    have hmem_s : (hh, c) ∈ m.mergeSort (fun a b => Nat.ble a.1 b.1) :=
      hperm.mem_iff.mpr (alookup_mem m hh c hmval)
    obtain ⟨⟨j, hj⟩, hgetj⟩ := List.mem_iff_get.mp hmem_s
    have hj2 : j < entries.length := by omega
    have hRj := forall₂_get hfa0 j hj hj2
    rw [hgetj] at hRj
    obtain ⟨e1, e2, e3⟩ := hRj
    try dsimp only at e1 e2 e3
    have hlookj := hlook' j hj2
    rw [e1] at hlookj
    simp only [emptyIndex, List.length_nil, Nat.zero_add] at hlookj
    have hgetf : idx'.file_data[j]? = some (FarcFile.new
        (storageStartOf m.length table + (entries.get ⟨j, hj2⟩).2.1)
        (entries.get ⟨j, hj2⟩).2.2 (entries.get ⟨j, hj2⟩).1 none) := by
      rw [hfd2, List.getElem?_map, List.getElem?_eq_getElem hj2]
      simp [List.get_eq_getElem]
    have hgfbh : getFileByHash idx' hh = some (some (FarcFile.new
        (storageStartOf m.length table + (entries.get ⟨j, hj2⟩).2.1)
        (entries.get ⟨j, hj2⟩).2.2 (entries.get ⟨j, hj2⟩).1 none)) := by
      unfold getFileByHash
      rw [hlookj]
      try dsimp only
      rw [hgetf]
    have hreadB : readBytes B (storageStartOf m.length table + (entries.get ⟨j, hj2⟩).2.1)
        (entries.get ⟨j, hj2⟩).2.2 = some c := by
      rw [e2, hBe]
      have hPlen : ((outerHeader (metaG m.length table).length
          (storageStartOf m.length table) storage.length ++ metaG m.length table) ++
          List.replicate (paddingOf m.length table) 0).length =
          storageStartOf m.length table := by
        simp only [List.length_append, outerHeader_length, List.length_replicate]
        omega
      have ha := readBytes_append_right ((outerHeader (metaG m.length table).length
          (storageStartOf m.length table) storage.length ++ metaG m.length table) ++
          List.replicate (paddingOf m.length table) 0) storage
          ((entries.get ⟨j, hj2⟩).2.1) c.length
      rw [hPlen] at ha
      rw [ha]
      exact e3
    exact readHashedFile_eval ⟨B, idx'⟩ hh (FarcFile.new
        (storageStartOf m.length table + (entries.get ⟨j, hj2⟩).2.1)
        (entries.get ⟨j, hj2⟩).2.2 (entries.get ⟨j, hj2⟩).1 none) c hgfbh hreadB

def c2wB0 : List Nat :=
  [70, 65, 82, 67] ++ List.replicate 28 0 ++
  [5, 0, 0, 0] ++ [64, 0, 0, 0] ++ [44, 0, 0, 0] ++ [112, 0, 0, 0] ++
  List.replicate 16 0 ++
  ([83, 73, 82, 48] ++ [28, 0, 0, 0] ++ [40, 0, 0, 0] ++ [0, 0, 0, 0] ++
   [7, 0, 0, 0, 0, 0, 0, 0, 4, 0, 0, 0] ++ [16, 0, 0, 0, 1, 0, 0, 0, 1, 0, 0, 0] ++
   [0, 0, 0, 0]) ++
  [0, 0, 0, 0] ++ [1, 2, 3, 4]

def c2wA0 : SpecFarc := ⟨c2wB0, ⟨[⟨112, 4, 7, none⟩], [(7, 0)], []⟩⟩

def c2wM : List (Nat × List Nat) := [(7, [1, 2, 3, 4])]

def c2wTable : List Nat := toLE4 7 ++ toLE4 0 ++ toLE4 4

def c2wB : List Nat :=
  outerHeader (metaG 1 c2wTable).length (storageStartOf 1 c2wTable) 8 ++
  metaG 1 c2wTable ++ List.replicate (paddingOf 1 c2wTable) 0 ++ [1, 2, 3, 4, 0, 0, 0, 0]

theorem c2wM_sorted : c2wM.mergeSort (fun a b => Nat.ble a.1 b.1) = [(7, [1, 2, 3, 4])] := by
  have h := List.mergeSort_perm c2wM (fun a b => Nat.ble a.1 b.1)
  rwa [show c2wM = [(7, [1, 2, 3, 4])] from rfl, List.perm_singleton] at h

theorem c2w_write : writeHashed c2wM = .ok c2wB :=
  writeHashed_eval c2wM [(7, [1, 2, 3, 4])] [1, 2, 3, 4, 0, 0, 0, 0] [(7, 0, 4)] c2wTable
    c2wM_sorted (by decide) (by decide) (by decide) (by decide) (by decide) (by decide)
    (by decide) (by decide)

theorem c2w_fits : roundTripFits c2wM = true := by
  unfold roundTripFits
  rw [c2wM_sorted]
  decide

set_option maxRecDepth 100000 in
/-- Witness for the amended claim C2 round trip: a concrete 116-byte
hash-indexed archive with one 4-byte file; all hypotheses evaluate, and the
amended theorem yields the reparse of the written output. -/
theorem c2_witness :
    (∀ b ∈ c2wB0, b < 256) ∧ farcNewSpec c2wB0 = .ok c2wA0 ∧
    newFromFarc c2wA0 = .ok c2wM ∧ writeHashed c2wM = .ok c2wB ∧
    roundTripFits c2wM = true ∧
    ∃ A, farcNewSpec c2wB = .ok A ∧
      A.index.len = c2wA0.index.len ∧
      ∀ h c, readHashedFile c2wA0 h = .ok c → readHashedFile A h = .ok c :=
  ⟨by decide, by decide, by decide, c2w_write, c2w_fits,
   c2_roundtrip_amended c2wB0 c2wA0 c2wM c2wB (by decide) (by decide) (by decide)
     c2w_write c2w_fits⟩

end PmdFarc
